import Mathlib

/-!
Verification of the core of a Rust path tracer (ray-tracing-in-a-weekend style).

The embedding is a shallow translation of the Rust sources:
  src/math.rs, src/ray.rs, src/aabb.rs, src/perlin.rs, src/texture.rs,
  src/material.rs, src/hittable.rs, src/main.rs.

Modelling conventions:
  * `f64` is idealized as a linear ordered field `α` (instantiated with `ℚ`
    or `ℝ` in concrete statements); rounding is not modelled.
  * `f64::sqrt`, `f64::sin` are passed as explicit function parameters
    (named `sqrt`, `sine`) to the definitions that call them; theorems that
    depend on their behaviour take explicit hypotheses about them.
  * IEEE NaN is modelled, where a claim explicitly ranges over NaN inputs,
    by `Option α` (`none` = NaN) with the NaN-propagation of the exact
    operations the code performs (`FClamp`, `FMul`, `FSqrt`, casts).
  * Rust slice indexing that would panic out of bounds is modelled with
    `List.getD` (claims only exercise in-bounds accesses).
-/

set_option linter.unusedSectionVars false
set_option linter.unusedVariables false

namespace RayTracer

variable {α : Type} [LinearOrderedField α]

/-- `Vector3` from src/math.rs: three `f64` components. -/
structure Vector3 (α : Type) where
  x : α
  y : α
  z : α
deriving DecidableEq, Repr

namespace Vector3

instance : Zero (Vector3 α) := ⟨⟨0, 0, 0⟩⟩

instance : Add (Vector3 α) := ⟨fun u v => ⟨u.x + v.x, u.y + v.y, u.z + v.z⟩⟩

instance : Sub (Vector3 α) := ⟨fun u v => ⟨u.x - v.x, u.y - v.y, u.z - v.z⟩⟩

instance : Neg (Vector3 α) := ⟨fun v => ⟨-v.x, -v.y, -v.z⟩⟩

/-- Hadamard product, `impl ops::Mul for Vector3`. -/
instance : Mul (Vector3 α) := ⟨fun u v => ⟨u.x * v.x, u.y * v.y, u.z * v.z⟩⟩

/-- `impl ops::Mul<f64> for Vector3`. -/
instance : HMul (Vector3 α) α (Vector3 α) := ⟨fun v s => ⟨v.x * s, v.y * s, v.z * s⟩⟩

/-- `impl ops::Mul<Vector3> for f64`. -/
instance : HMul α (Vector3 α) (Vector3 α) := ⟨fun s v => ⟨v.x * s, v.y * s, v.z * s⟩⟩

/-- `impl ops::Div<f64> for Vector3`: `(1.0 / rhs) * self`. -/
instance : HDiv (Vector3 α) α (Vector3 α) := ⟨fun v s => (1 / s : α) * v⟩

/-- `Vector3::dot`. -/
def dot (u v : Vector3 α) : α := u.x * v.x + u.y * v.y + u.z * v.z

/-- `Vector3::length_squared`. -/
def length_squared (v : Vector3 α) : α := v.x * v.x + v.y * v.y + v.z * v.z

/-- `Vector3::length`, with `f64::sqrt` as the explicit parameter `sqrt`. -/
def length (sqrt : α → α) (v : Vector3 α) : α := sqrt v.length_squared

/-- `Vector3::cross`. -/
def cross (u v : Vector3 α) : Vector3 α :=
  ⟨u.y * v.z - u.z * v.y, u.z * v.x - u.x * v.z, u.x * v.y - u.y * v.x⟩

/-- `Vector3::normalize`: `*v / v.length()`. -/
def normalize (sqrt : α → α) (v : Vector3 α) : Vector3 α := v / v.length sqrt

/-- `Vector3::reflect`. -/
def reflect (v n : Vector3 α) : Vector3 α := v - (2 : α) * Vector3.dot v n * n

/-- `Vector3::refract`. -/
def refract (sqrt : α → α) (uv n : Vector3 α) (etai_over_etat : α) : Vector3 α :=
  let cos_theta := min (Vector3.dot (-uv) n) 1
  let r_out_perp := etai_over_etat * (uv + cos_theta * n)
  let r_out_perp_length := r_out_perp.length_squared
  let r_out_parallel := (-(sqrt |1 - r_out_perp_length|)) * n
  r_out_perp + r_out_parallel

/-- `Vector3::near_zero`: all components below `1e-8` in magnitude. -/
def near_zero (v : Vector3 α) : Prop :=
  |v.x| < 1 / 100000000 ∧ |v.y| < 1 / 100000000 ∧ |v.z| < 1 / 100000000

instance (v : Vector3 α) : Decidable v.near_zero := by unfold near_zero; infer_instance

end Vector3

/-- `clamp` from src/math.rs. -/
def clamp (x mn mx : α) : α := if x < mn then mn else if x > mx then mx else x

/-- `Ray` from src/ray.rs. -/
structure Ray (α : Type) where
  origin : Vector3 α
  direction : Vector3 α
  time : α
deriving DecidableEq, Repr

namespace Ray

/-- `Ray::with_time`. -/
def with_time (origin direction : Vector3 α) (time : α) : Ray α := ⟨origin, direction, time⟩

/-- `Ray::at` (named `point_at` here since `at` is a Lean keyword):
`origin + t * direction`. -/
def point_at (r : Ray α) (t : α) : Vector3 α := r.origin + t * r.direction

end Ray

/-- `AABB` from src/aabb.rs. -/
structure AABB (α : Type) where
  minimum : Vector3 α
  maximum : Vector3 α
deriving DecidableEq, Repr

namespace AABB

/-- `AABB::new`. -/
def new (a b : Vector3 α) : AABB α := ⟨a, b⟩

/-- `AABB::surrounding_box`: per-axis min of minimums and max of maximums. -/
def surrounding_box (box0 box1 : AABB α) : AABB α :=
  ⟨⟨min box0.minimum.x box1.minimum.x,
    min box0.minimum.y box1.minimum.y,
    min box0.minimum.z box1.minimum.z⟩,
   ⟨max box0.maximum.x box1.maximum.x,
    max box0.maximum.y box1.maximum.y,
    max box0.maximum.z box1.maximum.z⟩⟩

/-- One axis of the slab test in `AABB::hit`: narrows the running interval,
returning `none` on the early `return false`. -/
def hit_axis (origin_a dir_a min_a max_a : α) (acc : α × α) : Option (α × α) :=
  let inv_d := 1 / dir_a
  let t0 := (min_a - origin_a) * inv_d
  let t1 := (max_a - origin_a) * inv_d
  let p := if inv_d < 0 then (t1, t0) else (t0, t1)
  let mn := if p.1 > acc.1 then p.1 else acc.1
  let mx := if p.2 < acc.2 then p.2 else acc.2
  if mx ≤ mn then none else some (mn, mx)

/-- `AABB::hit`: the slab test over the three axes with early exit. -/
def hit (b : AABB α) (r : Ray α) (t_min t_max : α) : Bool :=
  match hit_axis r.origin.x r.direction.x b.minimum.x b.maximum.x (t_min, t_max) with
  | none => false
  | some acc1 =>
    match hit_axis r.origin.y r.direction.y b.minimum.y b.maximum.y acc1 with
    | none => false
    | some acc2 =>
      match hit_axis r.origin.z r.direction.z b.minimum.z b.maximum.z acc2 with
      | none => false
      | some _ => true

end AABB

/-- Per-axis interval containment of boxes: `inner` lies inside `outer`. -/
def AABB.contains_box (outer inner : AABB α) : Prop :=
  outer.minimum.x ≤ inner.minimum.x ∧ outer.minimum.y ≤ inner.minimum.y ∧
  outer.minimum.z ≤ inner.minimum.z ∧ inner.maximum.x ≤ outer.maximum.x ∧
  inner.maximum.y ≤ outer.maximum.y ∧ inner.maximum.z ≤ outer.maximum.z

/-- `HitRecord` from src/hittable.rs; `mat_handle` is the wrapped `usize` of
`MaterialHandle`. -/
structure HitRecord (α : Type) where
  point : Vector3 α
  normal : Vector3 α
  t : α
  front_face : Bool
  mat_handle : Nat
  u : α
  v : α
deriving DecidableEq, Repr

namespace HitRecord

/-- `HitRecord::new()`: all fields defaulted. -/
def new : HitRecord α := ⟨0, 0, 0, false, 0, 0, 0⟩

/-- `HitRecord::set_face_normal`: `front_face = dot(ray.direction, outward) < 0`,
`normal = outward` when front facing and `-outward` otherwise. -/
def set_face_normal (rec : HitRecord α) (ray : Ray α) (outward_normal : Vector3 α) :
    HitRecord α :=
  let ff : Bool := decide (Vector3.dot ray.direction outward_normal < 0)
  { rec with front_face := ff,
             normal := if ff then outward_normal else -outward_normal }

end HitRecord

/-- The `Hittable` enum from src/hittable.rs. `Box` is named with `mn`/`mx`
binders for its `min`/`max` fields. -/
inductive Hittable (α : Type) where
  | Sphere (mat_handle : Nat) (center : Vector3 α) (radius : α)
  | MovingSphere (mat_handle : Nat) (center_0 center_1 : Vector3 α)
      (time_0 time_1 radius : α)
  | BvhNode (list : List Nat) (left_index right_index : Nat) (aabb_box : AABB α)
  | XYRect (mat_handle : Nat) (x0 x1 y0 y1 k : α)
  | XZRect (mat_handle : Nat) (x0 x1 z0 z1 k : α)
  | YZRect (mat_handle : Nat) (y0 y1 z0 z1 k : α)
  | Box (mat_handle : Nat) (mn mx : Vector3 α) (sides : List (Hittable α))
  | Translate (offset : Vector3 α) (ptr : Hittable α)
  | RotateY (sin_theta cos_theta : α) (has_box : Bool) (bbox : AABB α) (ptr : Hittable α)

/-- Out-of-bounds `Vec` indexing panics in Rust; it is modelled by this
default element via `List.getD`.  No claim exercises an out-of-bounds access. -/
instance : Inhabited (Hittable α) := ⟨.BvhNode [] 0 0 (AABB.new 0 0)⟩

namespace Hittable

/-- `Hittable::get_center_at_time`: linear interpolation between the two
keyframe centers. -/
def get_center_at_time (center_0 center_1 : Vector3 α) (time_0 time_1 time : α) :
    Vector3 α :=
  center_0 + ((time - time_0) / (time_1 - time_0)) * (center_1 - center_0)

/-- `Hittable::sphere_hit`.  `sqrt` stands for `f64::sqrt`; `sphere_uv` stands
for the `sphere_uv` function, which is called in src/hittable.rs but defined in
no file under src/, so it is kept as an opaque parameter (the spec gives no
formula for it either; no claim constrains a sphere record's `u`/`v`). -/
def sphere_hit (sqrt : α → α) (sphere_uv : Vector3 α → α × α)
    (center : Vector3 α) (radius : α) (ray : Ray α) (t_min t_max : α)
    (mat_handle : Nat) : Option (HitRecord α) :=
  let oc := ray.origin - center
  let a := ray.direction.length_squared
  let half_b := Vector3.dot oc ray.direction
  let c := oc.length_squared - radius * radius
  let discriminant := half_b * half_b - a * c
  if discriminant < 0 then none
  else
    let sqrtd := sqrt discriminant
    let root0 := (-half_b - sqrtd) / a
    let root1 := (-half_b + sqrtd) / a
    -- find the nearest root in the acceptable range, mirroring the two-step check
    let root? : Option α :=
      if root0 < t_min ∨ t_max < root0 then
        if root1 < t_min ∨ t_max < root1 then none else some root1
      else some root0
    root?.map fun root =>
      let p := ray.point_at root
      let outward_normal := (p - center) / radius
      let rec0 : HitRecord α := { HitRecord.new with mat_handle := mat_handle, t := root, point := p }
      let rec1 := rec0.set_face_normal ray outward_normal
      let uv := sphere_uv outward_normal
      { rec1 with u := uv.1, v := uv.2 }

/-- `Hittable::xy_rect_hit`. -/
def xy_rect_hit (x0 x1 y0 y1 k : α) (ray : Ray α) (t_min t_max : α)
    (mat_handle : Nat) : Option (HitRecord α) :=
  let t := (k - ray.origin.z) / ray.direction.z
  if t < t_min ∨ t > t_max then none
  else
    let x := ray.origin.x + t * ray.direction.x
    let y := ray.origin.y + t * ray.direction.y
    if x < x0 ∨ x > x1 ∨ y < y0 ∨ y > y1 then none
    else
      let rec0 : HitRecord α :=
        { HitRecord.new with u := (x - x0) / (x1 - x0), v := (y - y0) / (y1 - y0), t := t }
      let rec1 := rec0.set_face_normal ray ⟨0, 0, 1⟩
      some { rec1 with mat_handle := mat_handle, point := ray.point_at t }

/-- `Hittable::xz_rect_hit`. -/
def xz_rect_hit (x0 x1 z0 z1 k : α) (ray : Ray α) (t_min t_max : α)
    (mat_handle : Nat) : Option (HitRecord α) :=
  let t := (k - ray.origin.y) / ray.direction.y
  if t < t_min ∨ t > t_max then none
  else
    let x := ray.origin.x + t * ray.direction.x
    let z := ray.origin.z + t * ray.direction.z
    if x < x0 ∨ x > x1 ∨ z < z0 ∨ z > z1 then none
    else
      let rec0 : HitRecord α :=
        { HitRecord.new with u := (x - x0) / (x1 - x0), v := (z - z0) / (z1 - z0), t := t }
      let rec1 := rec0.set_face_normal ray ⟨0, 1, 0⟩
      some { rec1 with mat_handle := mat_handle, point := ray.point_at t }

/-- `Hittable::yz_rect_hit`. -/
def yz_rect_hit (y0 y1 z0 z1 k : α) (ray : Ray α) (t_min t_max : α)
    (mat_handle : Nat) : Option (HitRecord α) :=
  let t := (k - ray.origin.x) / ray.direction.x
  if t < t_min ∨ t > t_max then none
  else
    let y := ray.origin.y + t * ray.direction.y
    let z := ray.origin.z + t * ray.direction.z
    if y < y0 ∨ y > y1 ∨ z < z0 ∨ z > z1 then none
    else
      let rec0 : HitRecord α :=
        { HitRecord.new with u := (y - y0) / (y1 - y0), v := (z - z0) / (z1 - z0), t := t }
      let rec1 := rec0.set_face_normal ray ⟨1, 0, 0⟩
      some { rec1 with mat_handle := mat_handle, point := ray.point_at t }

end Hittable

mutual

/-- `Hittable::hit` from src/hittable.rs.  The `BvhNode` arm is the stub
returning `None` exactly as in the source. -/
def Hittable.hit (sqrt : α → α) (sphere_uv : Vector3 α → α × α) :
    Hittable α → Ray α → α → α → Option (HitRecord α)
  | .Sphere mat_handle center radius, ray, t_min, t_max =>
    Hittable.sphere_hit sqrt sphere_uv center radius ray t_min t_max mat_handle
  | .MovingSphere mat_handle center_0 center_1 time_0 time_1 radius, ray, t_min, t_max =>
    Hittable.sphere_hit sqrt sphere_uv
      (Hittable.get_center_at_time center_0 center_1 time_0 time_1 ray.time)
      radius ray t_min t_max mat_handle
  | .BvhNode _ _ _ _, _, _, _ => none
  | .XYRect mat_handle x0 x1 y0 y1 k, ray, t_min, t_max =>
    Hittable.xy_rect_hit x0 x1 y0 y1 k ray t_min t_max mat_handle
  | .XZRect mat_handle x0 x1 z0 z1 k, ray, t_min, t_max =>
    Hittable.xz_rect_hit x0 x1 z0 z1 k ray t_min t_max mat_handle
  | .YZRect mat_handle y0 y1 z0 z1 k, ray, t_min, t_max =>
    Hittable.yz_rect_hit y0 y1 z0 z1 k ray t_min t_max mat_handle
  | .Box _ _ _ sides, ray, t_min, t_max =>
    hit_hittables_loop sqrt sphere_uv sides ray t_min t_max none
  | .Translate offset ptr, ray, t_min, t_max =>
    let moved_ray := Ray.with_time (ray.origin - offset) ray.direction ray.time
    match Hittable.hit sqrt sphere_uv ptr moved_ray t_min t_max with
    | some rcd =>
      let rcd1 := { rcd with point := rcd.point + offset }
      some (rcd1.set_face_normal moved_ray rcd1.normal)
    | none => none
  | .RotateY sin_theta cos_theta _ _ ptr, ray, t_min, t_max =>
    Hittable.hit_rotate_y sqrt sphere_uv sin_theta cos_theta ptr ray t_min t_max

/-- `Hittable::hit_rotate_y`: rotate the ray into the object frame, delegate,
rotate point and normal back, and re-orient with `set_face_normal` against the
ROTATED ray (exactly as the source does). -/
def Hittable.hit_rotate_y (sqrt : α → α) (sphere_uv : Vector3 α → α × α)
    (sin_theta cos_theta : α) (ptr : Hittable α) (ray : Ray α) (t_min t_max : α) :
    Option (HitRecord α) :=
  let origin : Vector3 α :=
    ⟨cos_theta * ray.origin.x - sin_theta * ray.origin.z, ray.origin.y,
     sin_theta * ray.origin.x + cos_theta * ray.origin.z⟩
  let direction : Vector3 α :=
    ⟨cos_theta * ray.direction.x - sin_theta * ray.direction.z, ray.direction.y,
     sin_theta * ray.direction.x + cos_theta * ray.direction.z⟩
  let rotated_ray := Ray.with_time origin direction ray.time
  match Hittable.hit sqrt sphere_uv ptr rotated_ray t_min t_max with
  | some rcd =>
    let p : Vector3 α :=
      ⟨cos_theta * rcd.point.x + sin_theta * rcd.point.z, rcd.point.y,
       -sin_theta * rcd.point.x + cos_theta * rcd.point.z⟩
    let normal : Vector3 α :=
      ⟨cos_theta * rcd.normal.x + sin_theta * rcd.normal.z, rcd.normal.y,
       -sin_theta * rcd.normal.x + cos_theta * rcd.normal.z⟩
    let rcd1 := { rcd with point := p }
    some (rcd1.set_face_normal rotated_ray normal)
  | none => none

/-- The loop of `hit_hittables` from src/hittable.rs, with the running
`closest_so_far` bound and the best record so far as explicit state. -/
def hit_hittables_loop (sqrt : α → α) (sphere_uv : Vector3 α → α × α) :
    List (Hittable α) → Ray α → α → α → Option (HitRecord α) → Option (HitRecord α)
  | [], _, _, _, acc => acc
  | h :: rest, ray, t_min, closest_so_far, acc =>
    match Hittable.hit sqrt sphere_uv h ray t_min closest_so_far with
    | some record => hit_hittables_loop sqrt sphere_uv rest ray t_min record.t (some record)
    | none => hit_hittables_loop sqrt sphere_uv rest ray t_min closest_so_far acc

end

/-- `hit_hittables` from src/hittable.rs: the linear scan that narrows `t_max`
to the closest hit found so far. -/
def hit_hittables (sqrt : α → α) (sphere_uv : Vector3 α → α × α)
    (hittables : List (Hittable α)) (ray : Ray α) (t_min t_max : α) :
    Option (HitRecord α) :=
  hit_hittables_loop sqrt sphere_uv hittables ray t_min t_max none

/-- `Hittable::bvh_node_hit` from src/hittable.rs (dead code in the source):
reject against the cached AABB, search the left child, then the right child
with `t_max` restricted to the left hit's distance. -/
def Hittable.bvh_node_hit (sqrt : α → α) (sphere_uv : Vector3 α → α × α)
    (left right : Nat) (aabb : AABB α) (ray : Ray α) (t_min t_max : α)
    (hittables : List (Hittable α)) : Option (HitRecord α) :=
  if ¬ aabb.hit ray t_min t_max then none
  else
    let hit_left := Hittable.hit sqrt sphere_uv (hittables.getD left default) ray t_min t_max
    let mx := match hit_left with
      | some rcd => rcd.t
      | none => t_max
    match Hittable.hit sqrt sphere_uv (hittables.getD right default) ray t_min mx with
    | some hit_right => some hit_right
    | none => hit_left

/-- `Hittable::sphere_bounding_box`. -/
def Hittable.sphere_bounding_box (center : Vector3 α) (radius : α) : Option (AABB α) :=
  some (AABB.new (center - Vector3.mk radius radius radius)
                 (center + Vector3.mk radius radius radius))

/-- `Hittable::moving_sphere_bounding_box`. -/
def Hittable.moving_sphere_bounding_box (center_0 center_1 : Vector3 α) (radius : α)
    (time_0 time_1 : α) : Option (AABB α) :=
  let c0 := Hittable.get_center_at_time center_0 center_1 time_0 time_1 time_0
  let c1 := Hittable.get_center_at_time center_0 center_1 time_0 time_1 time_1
  let box0 := AABB.new (c0 - Vector3.mk radius radius radius)
                       (c0 + Vector3.mk radius radius radius)
  let box1 := AABB.new (c1 - Vector3.mk radius radius radius)
                       (c1 + Vector3.mk radius radius radius)
  some (AABB.surrounding_box box0 box1)

/-- `Hittable::bounding_box`.  In the `MovingSphere` arm the variant's own
`time_0`/`time_1` shadow the parameters, as in the source's pattern match. -/
def Hittable.bounding_box (time_0 time_1 : α) : Hittable α → Option (AABB α)
  | .Sphere _ center radius => Hittable.sphere_bounding_box center radius
  | .MovingSphere _ center_0 center_1 t0 t1 radius =>
    Hittable.moving_sphere_bounding_box center_0 center_1 radius t0 t1
  | .BvhNode _ _ _ aabb_box => some aabb_box
  | .XYRect _ x0 x1 y0 y1 k =>
    some (AABB.new ⟨x0, y0, k - 1 / 10000⟩ ⟨x1, y1, k + 1 / 10000⟩)
  | .XZRect _ x0 x1 z0 z1 k =>
    some (AABB.new ⟨x0, k - 1 / 10000, z0⟩ ⟨x1, k + 1 / 10000, z1⟩)
  | .YZRect _ y0 y1 z0 z1 k =>
    some (AABB.new ⟨k - 1 / 10000, y0, z0⟩ ⟨k + 1 / 10000, y1, z1⟩)
  | .Box _ mn mx _ => some (AABB.new mn mx)
  | .Translate offset ptr =>
    match Hittable.bounding_box time_0 time_1 ptr with
    | some aabb => some (AABB.new (aabb.minimum + offset) (aabb.maximum + offset))
    | none => none
  | .RotateY _ _ has_box bbox _ => if has_box then some bbox else none

/-- `Vector3::as_array`, as a list. -/
def Vector3.as_array (v : Vector3 α) : List α := [v.x, v.y, v.z]

/-- `AABB::box_compare`: order two hittables by the minimum corner of their
bounding boxes on the given axis. -/
def AABB.box_compare (a b : Hittable α) (axis : Nat) : Ordering :=
  match Hittable.bounding_box 0 0 a, Hittable.bounding_box 0 0 b with
  | some box_a, some box_b =>
    if (Vector3.as_array box_a.minimum).getD axis 0 <
       (Vector3.as_array box_b.minimum).getD axis 0 then .lt else .gt
  | _, _ => .eq

/-- `AABB::box_x_compare`. -/
def AABB.box_x_compare (a b : Hittable α) : Ordering := AABB.box_compare a b 0

/-- `AABB::box_y_compare`. -/
def AABB.box_y_compare (a b : Hittable α) : Ordering := AABB.box_compare a b 1

/-- `AABB::box_z_compare`. -/
def AABB.box_z_compare (a b : Hittable α) : Ordering := AABB.box_compare a b 2

/-- `Vec::sort_by` on the sub-slice `[s, e)`, as Rust's stable sort: the slice
is replaced by its stable (insertion) sort under `le a b = (comparator a b is not .gt)`. -/
def sort_slice (le : Nat → Nat → Prop) [DecidableRel le] (l : List Nat) (s e : Nat) :
    List Nat :=
  l.take s ++ ((l.drop s).take (e - s)).insertionSort le ++ l.drop e

/-- `Hittable::new_bvh_node` from src/hittable.rs.  The source's
`random_int_range(0, 3)` axis draw is a function that exists in no file under
src/; following spec section 4.2 ("pick a uniformly random axis (0, 1, or 2)")
it is modelled by the oracle `axes`, consumed at the counter `ctr`, one draw
per invocation.  The mutated `list` vector and the counter are threaded as
state; the pushed child nodes and returned indices mirror the source.  For
`end_ - start = 0`, which makes the source recurse forever, the model returns
the degenerate node directly (no claim concerns empty ranges). -/
def Hittable.new_bvh_node (axes : Nat → Int) (ctr : Nat) (indices : List Nat)
    (list : List (Hittable α)) (start end_ : Nat) (time_0 time_1 : α) :
    Hittable α × List (Hittable α) × Nat :=
  let indices_cpy := indices
  let axis := axes ctr
  let comparator : Hittable α → Hittable α → Ordering := fun a b =>
    if axis = 0 then AABB.box_x_compare a b
    else if axis = 1 then AABB.box_y_compare a b
    else AABB.box_z_compare a b
  let object_span := end_ - start
  if object_span = 1 then
    (Hittable.BvhNode indices_cpy start start (AABB.new 0 0), list, ctr + 1)
  else if object_span = 2 then
    if comparator (list.getD (indices_cpy.getD start 0) default)
                  (list.getD (indices_cpy.getD (start + 1) 0) default) = .gt then
      (Hittable.BvhNode indices_cpy start (start + 1) (AABB.new 0 0), list, ctr + 1)
    else
      (Hittable.BvhNode indices_cpy (start + 1) start (AABB.new 0 0), list, ctr + 1)
  else if object_span = 0 then
    (Hittable.BvhNode indices_cpy start start (AABB.new 0 0), list, ctr + 1)
  else
    let sorted := sort_slice
      (fun a b => comparator (list.getD a default) (list.getD b default) ≠ .gt)
      indices_cpy start end_
    let mid := start + object_span / 2
    -- the source recurses with the ORIGINAL `indices` and with the range
    -- [start, mid) for BOTH children
    let leftR := Hittable.new_bvh_node axes (ctr + 1) indices list start mid time_0 time_1
    let rightR := Hittable.new_bvh_node axes leftR.2.2 indices leftR.2.1 start mid time_0 time_1
    let list2 := rightR.2.1 ++ [leftR.1, rightR.1]
    (Hittable.BvhNode sorted (list2.length - 2) (list2.length - 1) (AABB.new 0 0),
     list2, rightR.2.2)
termination_by end_ - start
decreasing_by all_goals omega

/-- `Hittable::new_box`: the six rectangle faces of an axis-aligned box. -/
def Hittable.new_box (mn mx : Vector3 α) (mat_handle : Nat) : Hittable α :=
  Hittable.Box mat_handle mn mx
    [Hittable.XYRect mat_handle mn.x mx.x mn.y mx.y mx.z,
     Hittable.XYRect mat_handle mn.x mx.x mn.y mx.y mn.z,
     Hittable.XZRect mat_handle mn.x mx.x mn.z mx.z mx.y,
     Hittable.XZRect mat_handle mn.x mx.x mn.z mx.z mn.y,
     Hittable.YZRect mat_handle mn.y mx.y mn.z mx.z mx.x,
     Hittable.YZRect mat_handle mn.y mx.y mn.z mx.z mn.x]

/-- `Perlin` from src/perlin.rs: the permutation tables and the random unit
vectors.  Field contents are unconstrained state, as in the struct. -/
structure Perlin (α : Type) where
  ranvec : List (Vector3 α)
  perm_x : List Int
  perm_y : List Int
  perm_z : List Int

variable [FloorRing α]

namespace Perlin

/-- The corner-weight sum of `Perlin::perlin_interp`, with the eight loop
iterations unrolled in loop order. -/
def perlin_interp (c : Nat → Nat → Nat → Vector3 α) (u v w : α) : α :=
  let uu := u * u * (3 - 2 * u)
  let vv := v * v * (3 - 2 * v)
  let ww := w * w * (3 - 2 * w)
  let term := fun (i j k : Nat) =>
    let fi : α := (i : α)
    let fj : α := (j : α)
    let fk : α := (k : α)
    (fi * uu + (1 - fi) * (1 - uu)) * (fj * vv + (1 - fj) * (1 - vv)) *
      (fk * ww + (1 - fk) * (1 - ww)) * Vector3.dot (c i j k) ⟨u - fi, v - fj, w - fk⟩
  term 0 0 0 + term 0 0 1 + term 0 1 0 + term 0 1 1 +
    term 1 0 0 + term 1 0 1 + term 1 1 0 + term 1 1 1

/-- `Perlin::noise`.  `x as i32` on the (integral) floor value is the floor
integer; `& 255` on an `i32` equals `% 256` (two's complement); `as usize` of
the xor of table entries is `Int.toNat`; `Vec` indexing is `getD`. -/
def noise (self : Perlin α) (p : Vector3 α) : α :=
  let u := p.x - (⌊p.x⌋ : α)
  let v := p.y - (⌊p.y⌋ : α)
  let w := p.z - (⌊p.z⌋ : α)
  let u := u * u * (3 - 2 * u)
  let v := v * v * (3 - 2 * v)
  let w := w * w * (3 - 2 * w)
  let i : Int := ⌊p.x⌋
  let j : Int := ⌊p.y⌋
  let k : Int := ⌊p.z⌋
  let c := fun (di dj dk : Nat) =>
    let xi := ((i + di) % 256).toNat
    let yi := ((j + dj) % 256).toNat
    let zi := ((k + dk) % 256).toNat
    self.ranvec.getD
      ((Int.xor (Int.xor (self.perm_x.getD xi 0) (self.perm_y.getD yi 0))
        (self.perm_z.getD zi 0)).toNat) 0
  perlin_interp c u v w

/-- The accumulation loop of `Perlin::turb`: `accum += weight * noise(temp_p)`,
then `weight *= 0.5` and `temp_p *= 2.0`, for `n` iterations. -/
def turb_loop (self : Perlin α) : Nat → Vector3 α → α → α
  | 0, _, _ => 0
  | n + 1, temp_p, weight =>
    weight * self.noise temp_p + turb_loop self n (temp_p * (2 : α)) (weight * (1 / 2))

/-- `Perlin::turb`: the absolute value is applied once, to the accumulated
signed sum. -/
def turb (self : Perlin α) (p : Vector3 α) (depth : Int) : α :=
  |turb_loop self depth.toNat p 1|

end Perlin

/-- `Texture` from src/texture.rs.  `Image` carries width, height, bytes per
scanline, and the raw byte buffer. -/
inductive Texture (α : Type) where
  | SolidColor (color : Vector3 α)
  | Checker (even odd : Vector3 α)
  | Noise (perlin : Perlin α) (scale : α)
  | Image (width height bytes_per_scanline : Nat) (data : List Nat)

/-!
NaN-aware model of the `f64` operations on the `write_color` and image-lookup
paths, where the claims explicitly range over NaN inputs: a value is
`Option α`, `none` standing for NaN (infinities are outside the modelled
range; no operation on these paths can overflow a real value into one).
-/

/-- `f64` multiplication by a finite scalar, NaN-propagating. -/
def fmul (x : Option α) (s : α) : Option α := x.map (· * s)

/-- `1.0 - x`, NaN-propagating. -/
def fsub (s : α) (x : Option α) : Option α := x.map (s - ·)

/-- `clamp` from src/math.rs on a possibly-NaN argument: NaN compares false
with both bounds, so the code's two-branch clamp returns the NaN unchanged. -/
def fclamp (x : Option α) (mn mx : α) : Option α :=
  match x with
  | none => none
  | some v => some (clamp v mn mx)

/-- `f64::sqrt`, NaN-propagating and returning NaN on negative input. -/
def fsqrt (sqrt : α → α) (x : Option α) : Option α :=
  match x with
  | none => none
  | some v => if v < 0 then none else some (sqrt v)

/-- `f64 → i32` truncation toward zero. -/
def ftrunc (x : α) : Int := if 0 ≤ x then ⌊x⌋ else -⌊-x⌋

/-- Rust's saturating `as i32` cast: NaN goes to 0, finite values truncate
toward zero and saturate at the `i32` bounds. -/
def as_i32 (x : Option α) : Int :=
  match x with
  | none => 0
  | some v => max (-(2 ^ 31)) (min (2 ^ 31 - 1) (ftrunc v))

/-- Rust's saturating `as usize` cast: NaN and negatives go to 0, finite
values truncate and saturate at the `usize` bound. -/
def as_usize (x : Option α) : Nat :=
  match x with
  | none => 0
  | some v => (min (2 ^ 64 - 1) (ftrunc v)).toNat

/-- `Vector3::write_color` from src/math.rs, returning the three integers the
function prints.  The input color components are possibly-NaN `f64` values. -/
def Vector3.write_color (sqrt : α → α) (self : Vector3 (Option α))
    (samples_per_pixel : Int) : Int × Int × Int :=
  let scale : α := 1 / (samples_per_pixel : α)
  let r := fsqrt sqrt (fmul self.x scale)
  let g := fsqrt sqrt (fmul self.y scale)
  let b := fsqrt sqrt (fmul self.z scale)
  (as_i32 (fmul (fclamp r 0 (999 / 1000)) 256),
   as_i32 (fmul (fclamp g 0 (999 / 1000)) 256),
   as_i32 (fmul (fclamp b 0 (999 / 1000)) 256))

/-- The texel-index computation of the `Image` arm of
`ColorValue::get_color_value` (src/texture.rs): clamp `u`/`v` to `[0,1]`
(flipping `v`), scale to pixel coordinates, clamp the integer indices to the
valid range, and return the byte offset `j * bytes_per_scanline + i * 3`. -/
def image_texel_offset (width height bytes_per_scanline : Nat) (u v : Option α) : Nat :=
  let u1 := fclamp u 0 1
  let v1 := fsub 1 (fclamp v 0 1)
  let i0 := as_usize (fmul u1 (width : α))
  let j0 := as_usize (fmul v1 (height : α))
  let i := if i0 ≥ width then width - 1 else i0
  let j := if j0 ≥ height then height - 1 else j0
  j * bytes_per_scanline + i * 3

/-- `ColorValue::get_color_value` from src/texture.rs.  `sine` stands for
`f64::sin`.  The `Image` arm's raw pointer reads are modelled by `getD` (claim
C9 concerns exactly their being in bounds). -/
def Texture.get_color_value (sine : α → α) (tex : Texture α) (u v : α)
    (p : Vector3 α) : Vector3 α :=
  match tex with
  | .SolidColor color => color
  | .Checker even odd =>
    let sines := sine (10 * p.x) * sine (10 * p.y) * sine (10 * p.z)
    if sines < 0 then odd else even
  | .Noise perlin scale =>
    (⟨1, 1, 1⟩ : Vector3 α) * (1 / 2 : α) * (1 + sine (scale * p.z + 10 * perlin.turb p 7))
  | .Image width height bytes_per_scanline data =>
    let off := image_texel_offset width height bytes_per_scanline (some u) (some v)
    let color_scale : α := 1 / 255
    ⟨color_scale * (data.getD off 0 : α),
     color_scale * (data.getD (off + 1) 0 : α),
     color_scale * (data.getD (off + 2) 0 : α)⟩

/-- `Material` from src/material.rs (the source has exactly these three
variants). -/
inductive Material (α : Type) where
  | Lambertian (albedo : Texture α)
  | Metal (albedo : Vector3 α) (fuzz : α)
  | Dielectric (ir : α)

/-- The random draws one `scatter` call can make (`random_unit_vector`,
`random_in_unit_sphere`, `random_double`), supplied as an oracle. -/
structure ScatterRand (α : Type) where
  unit_vec : Vector3 α
  in_unit_sphere : Vector3 α
  double : α

namespace Material

/-- `Material::reflectance` (Schlick). -/
def reflectance (cosine ref_idx : α) : α :=
  let r0 := (1 - ref_idx) / (1 + ref_idx)
  let r0sq := r0 * r0
  r0sq + (1 - r0sq) * (1 - cosine) ^ (5 : Nat)

/-- `Material::scatter`, with the thread-local RNG draws supplied by `rnd`. -/
def scatter (sqrt sine : α → α) (rnd : ScatterRand α) (m : Material α) (ray : Ray α)
    (rcd : HitRecord α) : Option (Ray α × Vector3 α) :=
  match m with
  | .Lambertian albedo =>
    let scatter_direction := rcd.normal + rnd.unit_vec
    let scatter_direction :=
      if scatter_direction.near_zero then rcd.normal else scatter_direction
    (some (Ray.with_time rcd.point scatter_direction ray.time,
           Texture.get_color_value sine albedo rcd.u rcd.v rcd.point))
  | .Metal albedo fuzz =>
    let reflected := Vector3.reflect (Vector3.normalize sqrt ray.direction) rcd.normal
    let scattered := Ray.with_time rcd.point (reflected + fuzz * rnd.in_unit_sphere) ray.time
    if Vector3.dot scattered.direction rcd.normal > 0 then some (scattered, albedo) else none
  | .Dielectric ir =>
    let refraction_ratio := if rcd.front_face then 1 / ir else ir
    let unit_direction := Vector3.normalize sqrt ray.direction
    let cos_theta := min (Vector3.dot (-unit_direction) rcd.normal) 1
    let sin_theta := sqrt (1 - cos_theta * cos_theta)
    let cannot_refract := refraction_ratio * sin_theta > 1
    let direction :=
      if cannot_refract ∨ reflectance cos_theta refraction_ratio > rnd.double then
        Vector3.reflect unit_direction rcd.normal
      else
        Vector3.refract sqrt unit_direction rcd.normal refraction_ratio
    some (Ray.with_time rcd.point direction ray.time, (⟨1, 1, 1⟩ : Vector3 α))

/-- Modelled from the spec: `ray_color` in src/main.rs calls
`material.emitted(u, v, point)`, but no file under src/ defines `emitted`.
Per spec section 4.4 it is "zero for all non-emissive variants"; the three
variants present in src/material.rs are all non-emissive. -/
def emitted (_m : Material α) (_u _v : α) (_p : Vector3 α) : Vector3 α := 0

end Material

/-- `ray_color` from src/main.rs.  `infinity` models the `INFINITY` upper
bound constant; `rnds n` supplies the RNG draws of the `n`-th bounce;
`materials[rec.mat_handle.0 - 1]` (which panics when out of bounds) is
modelled with `getD` and natural subtraction. -/
def ray_color (sqrt sine : α → α) (sphere_uv : Vector3 α → α × α) (infinity : α)
    (rnds : Nat → ScatterRand α) (ray : Ray α) (background_color : Vector3 α)
    (hittables : List (Hittable α)) (depth : Int) (materials : List (Material α)) :
    Vector3 α :=
  if depth ≤ 0 then ⟨0, 0, 0⟩
  else
    match hit_hittables sqrt sphere_uv hittables ray (1 / 1000) infinity with
    | some rcd =>
      let material := materials.getD (rcd.mat_handle - 1)
        (Material.Lambertian (Texture.SolidColor 0))
      let emitted := material.emitted rcd.u rcd.v rcd.point
      match Material.scatter sqrt sine (rnds 0) material ray rcd with
      | some (scattered, attenuation) =>
        emitted + attenuation *
          ray_color sqrt sine sphere_uv infinity (fun n => rnds (n + 1)) scattered
            background_color hittables (depth - 1) materials
      | none => emitted
    | none => background_color
termination_by depth.toNat
decreasing_by omega

/-!
Event-trace embedding of the worker-thread closure in `main`
(src/main.rs, the `thread::spawn(move || ...)` body): every interaction of a
worker with state shared between threads is emitted as an event, in program
order — a progress send on its channel every 50 pixels, the single
`pixel_colors.lock()` acquisition, and the per-pixel merge writes performed
under that lock.  Per-pixel sampling itself only touches the private local
buffer; the composite `camera.get_ray`/`ray_color` sample value is supplied
by the `sample` oracle.
-/

/-- One shared-state interaction of a worker thread. -/
inductive RenderEvent (α : Type) where
  | progress (thread_index remaining : Nat)
  | lock_acquire
  | merge (x y : Nat) (color : Vector3 α)
deriving DecidableEq, Repr

/-- The pixel traversal order of the worker loop: `for x { for y }`. -/
def pixel_list (w h : Nat) : List (Nat × Nat) :=
  (List.range w).flatMap fun x => (List.range h).map fun y => (x, y)

/-- The sample accumulation for one pixel:
`for _s in 0..samples_per_pixel / thread_count { pixel_color += ... }`. -/
def pixel_color (sample : Nat → Nat → Nat → Vector3 α) (spp tc x y : Nat) : Vector3 α :=
  (List.range (spp / tc)).foldl (fun acc s => acc + sample x y s) 0

/-- The events of the worker's pixel loop: `pixels_left` decremented per
pixel, `last_change` incremented and reset at 50, at which point a progress
pair is sent on the worker's channel. -/
def worker_scan_events (i : Nat) : List (Nat × Nat) → Nat → Nat → List (RenderEvent α)
  | [], _, _ => []
  | _ :: rest, pixels_left, last_change =>
    let pl := pixels_left - 1
    let lc := last_change + 1
    if lc = 50 then RenderEvent.progress i pl :: worker_scan_events i rest pl 0
    else worker_scan_events i rest pl lc

/-- The full shared-state event trace of worker `i`: the pixel-loop progress
sends, then the single lock acquisition, then the merge of the entire private
buffer into the framebuffer, pixel by pixel in `for x { for y }` order. -/
def worker_events (sample : Nat → Nat → Nat → Vector3 α) (i w h spp tc : Nat) :
    List (RenderEvent α) :=
  worker_scan_events i (pixel_list w h) (w * h) 0 ++
    RenderEvent.lock_acquire ::
      (pixel_list w h).map fun q =>
        RenderEvent.merge q.1 q.2 (pixel_color sample spp tc q.1 q.2)

/-- Recognizer for the lock-acquisition event. -/
def RenderEvent.is_lock : RenderEvent α → Bool
  | .lock_acquire => true
  | _ => false

/-- Recognizer for a progress-report event. -/
def RenderEvent.is_progress : RenderEvent α → Bool
  | .progress _ _ => true
  | _ => false

mutual

/-- A structural size measure on `Hittable`, used for the strong inductions
over the nested `hit` recursion. -/
def hsize : Hittable α → Nat
  | .Box _ _ _ sides => lsize sides + 1
  | .Translate _ ptr => hsize ptr + 1
  | .RotateY _ _ _ _ ptr => hsize ptr + 1
  | _ => 1

/-- Total size of a list of hittables. -/
def lsize : List (Hittable α) → Nat
  | [] => 0
  | h :: t => hsize h + lsize t + 1

end

mutual

/-- No `RotateY` wrapper occurs anywhere in the hittable (the one variant
whose `hit` re-orients the record against the rotated ray rather than the
incoming one). -/
def rot_free : Hittable α → Prop
  | .Box _ _ _ sides => rot_free_list sides
  | .Translate _ ptr => rot_free ptr
  | .RotateY _ _ _ _ _ => False
  | _ => True

/-- `rot_free` for every element of a list. -/
def rot_free_list : List (Hittable α) → Prop
  | [] => True
  | h :: t => rot_free h ∧ rot_free_list t

end

/-- The geometric intersection predicate the spec's "valid intersection"
denotes, per variant: a sphere is met where the squared distance to the
(possibly time-interpolated) center equals the squared radius; a rectangle is
met where the ray crosses its plane inside its 2-D extent (boundary
included, as the code accepts boundary coordinates); a box is met where some
side is; `Translate`/`RotateY` are met where the wrapped hittable meets the
offset/rotated ray; a `BvhNode` carries no geometry of its own (its stub
`hit` has no arena access), so it has no intersections. -/
inductive Intersects : Hittable α → Ray α → α → Prop where
  | sphere {m : Nat} {center : Vector3 α} {radius : α} {r : Ray α} {t : α}
      (h : Vector3.dot (r.point_at t - center) (r.point_at t - center) = radius * radius) :
      Intersects (.Sphere m center radius) r t
  | movingSphere {m : Nat} {c0 c1 : Vector3 α} {t0 t1 radius : α} {r : Ray α} {t : α}
      (h : Vector3.dot (r.point_at t - Hittable.get_center_at_time c0 c1 t0 t1 r.time)
             (r.point_at t - Hittable.get_center_at_time c0 c1 t0 t1 r.time) =
           radius * radius) :
      Intersects (.MovingSphere m c0 c1 t0 t1 radius) r t
  | xyRect {m : Nat} {x0 x1 y0 y1 k : α} {r : Ray α} {t : α}
      (hz : (r.point_at t).z = k)
      (hx0 : x0 ≤ (r.point_at t).x) (hx1 : (r.point_at t).x ≤ x1)
      (hy0 : y0 ≤ (r.point_at t).y) (hy1 : (r.point_at t).y ≤ y1) :
      Intersects (.XYRect m x0 x1 y0 y1 k) r t
  | xzRect {m : Nat} {x0 x1 z0 z1 k : α} {r : Ray α} {t : α}
      (hy : (r.point_at t).y = k)
      (hx0 : x0 ≤ (r.point_at t).x) (hx1 : (r.point_at t).x ≤ x1)
      (hz0 : z0 ≤ (r.point_at t).z) (hz1 : (r.point_at t).z ≤ z1) :
      Intersects (.XZRect m x0 x1 z0 z1 k) r t
  | yzRect {m : Nat} {y0 y1 z0 z1 k : α} {r : Ray α} {t : α}
      (hx : (r.point_at t).x = k)
      (hy0 : y0 ≤ (r.point_at t).y) (hy1 : (r.point_at t).y ≤ y1)
      (hz0 : z0 ≤ (r.point_at t).z) (hz1 : (r.point_at t).z ≤ z1) :
      Intersects (.YZRect m y0 y1 z0 z1 k) r t
  | box {m : Nat} {mn mx : Vector3 α} {sides : List (Hittable α)} {s : Hittable α}
      {r : Ray α} {t : α} (hs : s ∈ sides) (h : Intersects s r t) :
      Intersects (.Box m mn mx sides) r t
  | translate {offset : Vector3 α} {ptr : Hittable α} {r : Ray α} {t : α}
      (h : Intersects ptr (Ray.with_time (r.origin - offset) r.direction r.time) t) :
      Intersects (.Translate offset ptr) r t
  | rotateY {s c : α} {hb : Bool} {bb : AABB α} {ptr : Hittable α} {r : Ray α} {t : α}
      (h : Intersects ptr (Ray.with_time
             ⟨c * r.origin.x - s * r.origin.z, r.origin.y,
              s * r.origin.x + c * r.origin.z⟩
             ⟨c * r.direction.x - s * r.direction.z, r.direction.y,
              s * r.direction.x + c * r.direction.z⟩ r.time) t) :
      Intersects (.RotateY s c hb bb ptr) r t

mutual

/-- The ray is not degenerate for the hittable: no division the `hit` code
performs is by zero (sphere quadratics divide by the squared direction
length, rectangle plane crossings by the direction component along the fixed
axis).  On such rays the `f64` code produces infinities/NaNs and the exact
field model diverges from it, so the nearest-hit claims are stated away from
them. -/
def nondegenerate : Hittable α → Ray α → Prop
  | .Sphere _ _ _, r => r.direction ≠ 0
  | .MovingSphere _ _ _ _ _ _, r => r.direction ≠ 0
  | .BvhNode _ _ _ _, _ => True
  | .XYRect _ _ _ _ _ _, r => r.direction.z ≠ 0
  | .XZRect _ _ _ _ _ _, r => r.direction.y ≠ 0
  | .YZRect _ _ _ _ _ _, r => r.direction.x ≠ 0
  | .Box _ _ _ sides, r => nondegenerate_list sides r
  | .Translate offset ptr, r =>
    nondegenerate ptr (Ray.with_time (r.origin - offset) r.direction r.time)
  | .RotateY s c _ _ ptr, r =>
    nondegenerate ptr (Ray.with_time
      ⟨c * r.origin.x - s * r.origin.z, r.origin.y, s * r.origin.x + c * r.origin.z⟩
      ⟨c * r.direction.x - s * r.direction.z, r.direction.y,
       s * r.direction.x + c * r.direction.z⟩ r.time)

/-- `nondegenerate` for every element of a list. -/
def nondegenerate_list : List (Hittable α) → Ray α → Prop
  | [], _ => True
  | h :: t, r => nondegenerate h r ∧ nondegenerate_list t r

end

/-- The two properties of `f64::sqrt` on nonnegative arguments that the
sphere-intersection analysis needs (satisfied by the real square root). -/
def sqrt_ok (sqrt : α → α) : Prop := ∀ x, 0 ≤ x → sqrt x * sqrt x = x ∧ 0 ≤ sqrt x

/-!
## Theorems
-/

/-- C8: `surrounding_box(a, b)` is the minimal box containing both inputs —
per axis the min of the two minimums and the max of the two maximums — and it
is commutative and associative, so repeated unioning over a primitive list is
order-independent. -/
theorem surrounding_box_minimal_comm_assoc (a b c : AABB α) :
    (AABB.surrounding_box a b).contains_box a ∧
    (AABB.surrounding_box a b).contains_box b ∧
    (∀ d : AABB α, d.contains_box a → d.contains_box b →
      d.contains_box (AABB.surrounding_box a b)) ∧
    AABB.surrounding_box a b = AABB.surrounding_box b a ∧
    AABB.surrounding_box (AABB.surrounding_box a b) c =
      AABB.surrounding_box a (AABB.surrounding_box b c) := by
  refine ⟨?_, ?_, ?_, ?_, ?_⟩
  · exact ⟨min_le_left _ _, min_le_left _ _, min_le_left _ _,
      le_max_left _ _, le_max_left _ _, le_max_left _ _⟩
  · exact ⟨min_le_right _ _, min_le_right _ _, min_le_right _ _,
      le_max_right _ _, le_max_right _ _, le_max_right _ _⟩
  · rintro d ⟨ha1, ha2, ha3, ha4, ha5, ha6⟩ ⟨hb1, hb2, hb3, hb4, hb5, hb6⟩
    exact ⟨le_min ha1 hb1, le_min ha2 hb2, le_min ha3 hb3,
      max_le ha4 hb4, max_le ha5 hb5, max_le ha6 hb6⟩
  · simp [AABB.surrounding_box, min_comm, max_comm]
  · simp [AABB.surrounding_box, min_assoc, max_assoc]

/-- Closed instance of the C8 theorem at concrete boxes, with the containment
hypotheses of the minimality part discharged at a concrete outer box. -/
theorem surrounding_box_minimal_comm_assoc_witness :
    (AABB.new (⟨-5, -5, -5⟩ : Vector3 ℚ) ⟨9, 9, 9⟩).contains_box
      (AABB.surrounding_box (AABB.new ⟨0, 0, 0⟩ ⟨1, 2, 3⟩) (AABB.new ⟨-1, 1, -2⟩ ⟨4, 1, 9⟩)) := by
  refine (surrounding_box_minimal_comm_assoc (AABB.new (⟨0, 0, 0⟩ : Vector3 ℚ) ⟨1, 2, 3⟩)
    (AABB.new ⟨-1, 1, -2⟩ ⟨4, 1, 9⟩) (AABB.new 0 0)).2.2.1 _ ?_ ?_ <;>
    norm_num [AABB.new, AABB.contains_box]

/-- C1: the `BvhNode` arm of `Hittable::hit` is an unconditional stub: it
reports no intersection for every node, ray and interval, never consulting the
cached AABB or the children — even when (second and third conjuncts, evaluated
at the failing input) the cached AABB test passes and the traversal helper
`bvh_node_hit` would find a child intersection. -/
theorem hit_bvh_node_always_none :
    (∀ (sqrt : α → α) (sphere_uv : Vector3 α → α × α) (lst : List Nat) (li ri : Nat)
      (bb : AABB α) (ray : Ray α) (t_min t_max : α),
      Hittable.hit sqrt sphere_uv (Hittable.BvhNode lst li ri bb) ray t_min t_max = none) ∧
    (∀ (sqrt : α → α) (sphere_uv : Vector3 α → α × α),
      AABB.hit (AABB.new (⟨-10, -10, -10⟩ : Vector3 α) ⟨10, 10, 10⟩)
        ⟨⟨0, 0, -5⟩, ⟨1, 1, 1⟩, 0⟩ (1 / 1000) 1000 = true ∧
      Hittable.bvh_node_hit sqrt sphere_uv 0 0 (AABB.new ⟨-10, -10, -10⟩ ⟨10, 10, 10⟩)
        ⟨⟨0, 0, -5⟩, ⟨1, 1, 1⟩, 0⟩ (1 / 1000) 1000
        [Hittable.XYRect 1 (-10) 10 (-10) 10 0] ≠ none) := by
  constructor
  · intro sqrt sphere_uv lst li ri bb ray t_min t_max
    simp [Hittable.hit]
  · intro sqrt sphere_uv
    constructor
    · norm_num [AABB.hit, AABB.hit_axis, AABB.new]
    · intro h
      norm_num [Hittable.bvh_node_hit, AABB.hit, AABB.hit_axis, AABB.new,
        Hittable.hit, Hittable.xy_rect_hit, Ray.point_at, HitRecord.set_face_normal,
        HitRecord.new, Vector3.dot, List.getD] at h
      exact Option.noConfusion h

theorem clamp_le_self_le {x mn mx : α} (hmn : mn ≤ mx) :
    mn ≤ clamp x mn mx ∧ clamp x mn mx ≤ mx := by
  unfold clamp
  split
  · exact ⟨le_refl _, hmn⟩
  · split
    · exact ⟨hmn, le_refl _⟩
    · next h1 h2 => exact ⟨le_of_not_lt h1, le_of_not_lt h2⟩

theorem channel_value_in_range (x : Option α) :
    0 ≤ as_i32 (fmul (fclamp x 0 (999 / 1000)) 256) ∧
      as_i32 (fmul (fclamp x 0 (999 / 1000)) 256) ≤ 255 := by
  match x with
  | none => simp [fclamp, fmul, as_i32]
  | some v =>
    have hb : (0 : α) ≤ clamp v 0 (999 / 1000) ∧ clamp v 0 (999 / 1000) ≤ 999 / 1000 :=
      clamp_le_self_le (by norm_num)
    simp only [fclamp, fmul, Option.map_some', as_i32]
    have h0 : (0 : α) ≤ clamp v 0 (999 / 1000) * 256 := by nlinarith [hb.1]
    have h1 : clamp v 0 (999 / 1000) * 256 < 256 := by nlinarith [hb.2]
    have htr : ftrunc (clamp v 0 (999 / 1000) * 256) = ⌊clamp v 0 (999 / 1000) * 256⌋ := by
      simp [ftrunc, h0]
    rw [htr]
    have hf0 : (0 : Int) ≤ ⌊clamp v 0 (999 / 1000) * 256⌋ := Int.floor_nonneg.mpr h0
    have hf1 : ⌊clamp v 0 (999 / 1000) * 256⌋ < 256 := by
      rw [Int.floor_lt]
      exact_mod_cast h1
    constructor
    · exact le_max_of_le_right (le_min (by norm_num) hf0)
    · exact max_le (by norm_num) (min_le_of_right_le (by omega))

/-- C6: for every input color — components may be negative, above 1, or NaN —
and every positive sample count, the three channel values emitted by
`write_color` are integers in `[0, 255]`: scaled, square-root
gamma-corrected, clamped, and truncated, the result never exceeds 255 and is
never negative.  Stated for an arbitrary model `sqrt` of `f64::sqrt`
(NaN-propagating via `fsqrt`), so it holds in particular for the real square
root. -/
theorem write_color_channels_in_range (sqrt : α → α) (c : Vector3 (Option α))
    (samples_per_pixel : Int) (hspp : 0 < samples_per_pixel) :
    0 ≤ (Vector3.write_color sqrt c samples_per_pixel).1 ∧
    (Vector3.write_color sqrt c samples_per_pixel).1 ≤ 255 ∧
    0 ≤ (Vector3.write_color sqrt c samples_per_pixel).2.1 ∧
    (Vector3.write_color sqrt c samples_per_pixel).2.1 ≤ 255 ∧
    0 ≤ (Vector3.write_color sqrt c samples_per_pixel).2.2 ∧
    (Vector3.write_color sqrt c samples_per_pixel).2.2 ≤ 255 := by
  unfold Vector3.write_color
  refine ⟨(channel_value_in_range _).1, (channel_value_in_range _).2,
    (channel_value_in_range _).1, (channel_value_in_range _).2,
    (channel_value_in_range _).1, (channel_value_in_range _).2⟩

/-- Closed instance of the C6 theorem: a color with a NaN red channel, a
negative green channel and an out-of-range blue channel, at 4 samples per
pixel. -/
theorem write_color_channels_in_range_witness :
    0 ≤ (Vector3.write_color (fun x => x) (⟨none, some (-3 : ℚ), some (7 / 2)⟩)
          4).1 ∧
    (Vector3.write_color (fun x => x) (⟨none, some (-3 : ℚ), some (7 / 2)⟩) 4).1 ≤ 255 ∧
    0 ≤ (Vector3.write_color (fun x => x) (⟨none, some (-3 : ℚ), some (7 / 2)⟩) 4).2.1 ∧
    (Vector3.write_color (fun x => x) (⟨none, some (-3 : ℚ), some (7 / 2)⟩) 4).2.1 ≤ 255 ∧
    0 ≤ (Vector3.write_color (fun x => x) (⟨none, some (-3 : ℚ), some (7 / 2)⟩) 4).2.2 ∧
    (Vector3.write_color (fun x => x) (⟨none, some (-3 : ℚ), some (7 / 2)⟩) 4).2.2 ≤ 255 :=
  write_color_channels_in_range (fun x => x) ⟨none, some (-3), some (7 / 2)⟩ 4 (by norm_num)

theorem texel_offset_bound (width height i j : Nat) (hw : 1 ≤ width)
    (hi : i < width) (hj : j < height) :
    j * (3 * width) + i * 3 + 2 < 3 * width * height := by
  have h1 : (j + 1) * (3 * width) ≤ height * (3 * width) :=
    Nat.mul_le_mul_right _ (by omega)
  have h2 : (j + 1) * (3 * width) = j * (3 * width) + 3 * width := by ring
  have h3 : height * (3 * width) = 3 * width * height := by ring
  omega

/-- C9: in the `Image` texture lookup, for a well-formed image (width and
height at least 1, `bytes_per_scanline = 3 * width`, buffer of at least
`3 * width * height` bytes) and arbitrary `u`, `v` — NaN included — the
clamping of `u`/`v` to `[0,1]` followed by the integer clamps `i < width`,
`j < height` keeps all three byte reads at offsets
`j * bytes_per_scanline + 3 * i`, `+1`, `+2` strictly inside the buffer. -/
theorem image_texel_reads_in_bounds (width height bytes_per_scanline : Nat)
    (u v : Option α) (data : List Nat) (hw : 1 ≤ width) (hh : 1 ≤ height)
    (hbps : bytes_per_scanline = 3 * width) (hdata : 3 * width * height ≤ data.length) :
    image_texel_offset width height bytes_per_scanline u v + 2 < data.length := by
  subst hbps
  simp only [image_texel_offset]
  apply lt_of_lt_of_le _ hdata
  apply texel_offset_bound width height _ _ hw
  · split <;> omega
  · split <;> omega

/-- Closed instance of the C9 theorem at a 2-by-3 image with a NaN `u` and an
out-of-range `v`. -/
theorem image_texel_reads_in_bounds_witness :
    image_texel_offset 2 3 6 (none : Option ℚ) (some 5) + 2 <
      (List.replicate (18 : Nat) (7 : Nat)).length :=
  image_texel_reads_in_bounds 2 3 6 none (some 5) (List.replicate 18 7)
    (by norm_num) (by norm_num) (by norm_num) (by simp)

theorem worker_scan_events_progress (i : Nat) :
    ∀ (ps : List (Nat × Nat)) (pl lc : Nat),
      ∀ e ∈ (worker_scan_events i ps pl lc : List (RenderEvent α)), e.is_progress = true := by
  intro ps
  induction ps with
  | nil => intro pl lc e he; simp [worker_scan_events] at he
  | cons q rest ih =>
    intro pl lc e he
    rw [worker_scan_events] at he
    split at he
    · rcases List.mem_cons.mp he with h | h
      · simp [h, RenderEvent.is_progress]
      · exact ih _ _ _ h
    · exact ih _ _ _ he

/-- C10: during a worker's pass, the framebuffer lock is acquired exactly once
— at the end of the pass, after the whole pixel loop — and under that single
acquisition the worker merges its entire private buffer, one merge write per
pixel of its traversal, never locking per pixel; everything the worker does
with shared state before the acquisition is progress reporting on its own
channel. -/
theorem worker_locks_once_merges_at_end (sample : Nat → Nat → Nat → Vector3 α)
    (i w h spp tc : Nat) :
    (worker_events sample i w h spp tc).countP RenderEvent.is_lock = 1 ∧
    ∃ pre,
      worker_events sample i w h spp tc =
        pre ++ RenderEvent.lock_acquire ::
          ((pixel_list w h).map fun q =>
            RenderEvent.merge q.1 q.2 (pixel_color sample spp tc q.1 q.2)) ∧
      ∀ e ∈ pre, e.is_progress = true := by
  constructor
  · rw [worker_events, List.countP_append, List.countP_cons]
    have h1 : (worker_scan_events i (pixel_list w h) (w * h) 0 :
        List (RenderEvent α)).countP RenderEvent.is_lock = 0 := by
      refine List.countP_eq_zero.mpr fun e he => ?_
      have := worker_scan_events_progress i (pixel_list w h) (w * h) 0 e he
      cases e <;> simp_all [RenderEvent.is_progress, RenderEvent.is_lock]
    have h2 : (((pixel_list w h).map fun q =>
        RenderEvent.merge q.1 q.2 (pixel_color sample spp tc q.1 q.2)) :
        List (RenderEvent α)).countP RenderEvent.is_lock = 0 := by
      refine List.countP_eq_zero.mpr fun e he => ?_
      rcases List.mem_map.mp he with ⟨q, _, rfl⟩
      simp [RenderEvent.is_lock]
    simp [h1, h2, RenderEvent.is_lock]
  · exact ⟨worker_scan_events i (pixel_list w h) (w * h) 0, rfl,
      worker_scan_events_progress i (pixel_list w h) (w * h) 0⟩

/-- C7: `ray_color` at depth at most zero returns black, for every ray,
background, world and materials table (in particular without consulting the
world), and at positive depth it performs one step of the integrator in which
the only recursive call receives `depth - 1`; the embedding itself is a total
function by well-founded recursion on the depth. -/
theorem ray_color_depth_cap (sqrt sine : α → α) (sphere_uv : Vector3 α → α × α)
    (infinity : α) (rnds : Nat → ScatterRand α) (ray : Ray α)
    (background_color : Vector3 α) (hittables : List (Hittable α)) (depth : Int)
    (materials : List (Material α)) :
    (depth ≤ 0 →
      ray_color sqrt sine sphere_uv infinity rnds ray background_color hittables depth
        materials = ⟨0, 0, 0⟩) ∧
    (0 < depth →
      ray_color sqrt sine sphere_uv infinity rnds ray background_color hittables depth
          materials =
        match hit_hittables sqrt sphere_uv hittables ray (1 / 1000) infinity with
        | some rcd =>
          let material := materials.getD (rcd.mat_handle - 1)
            (Material.Lambertian (Texture.SolidColor 0))
          let emitted := material.emitted rcd.u rcd.v rcd.point
          match Material.scatter sqrt sine (rnds 0) material ray rcd with
          | some (scattered, attenuation) =>
            emitted + attenuation *
              ray_color sqrt sine sphere_uv infinity (fun n => rnds (n + 1)) scattered
                background_color hittables (depth - 1) materials
          | none => emitted
        | none => background_color) := by
  constructor
  · intro hd
    rw [ray_color]
    simp [hd]
  · intro hd
    rw [ray_color]
    simp [not_le.mpr hd]

/-- Closed instance of the C7 theorem on an empty world at depths -5 and 1:
the cap returns black at non-positive depth, and the single step at depth 1
falls through to the background color. -/
theorem ray_color_depth_cap_witness :
    ray_color (fun x : ℚ => x) (fun x => x) (fun _ => (0, 0)) 1000000
        (fun _ => ⟨⟨0, 0, 0⟩, ⟨0, 0, 0⟩, 0⟩) ⟨⟨0, 0, 0⟩, ⟨1, 0, 0⟩, 0⟩ ⟨9, 9, 9⟩ [] (-5) [] =
      ⟨0, 0, 0⟩ ∧
    ray_color (fun x : ℚ => x) (fun x => x) (fun _ => (0, 0)) 1000000
        (fun _ => ⟨⟨0, 0, 0⟩, ⟨0, 0, 0⟩, 0⟩) ⟨⟨0, 0, 0⟩, ⟨1, 0, 0⟩, 0⟩ ⟨9, 9, 9⟩ [] 1 [] =
      ⟨9, 9, 9⟩ := by
  constructor
  · exact (ray_color_depth_cap _ _ _ _ _ _ _ _ _ _).1 (by norm_num)
  · exact ((ray_color_depth_cap _ _ _ _ _ _ _ _ _ _).2 (by norm_num)).trans
      (by simp [hit_hittables, hit_hittables_loop])

@[simp] theorem Vector3.add_def (u v : Vector3 α) :
    u + v = ⟨u.x + v.x, u.y + v.y, u.z + v.z⟩ := rfl

@[simp] theorem Vector3.sub_def (u v : Vector3 α) :
    u - v = ⟨u.x - v.x, u.y - v.y, u.z - v.z⟩ := rfl

@[simp] theorem Vector3.neg_def (v : Vector3 α) : -v = ⟨-v.x, -v.y, -v.z⟩ := rfl

@[simp] theorem Vector3.mul_scalar_def (v : Vector3 α) (s : α) :
    v * s = ⟨v.x * s, v.y * s, v.z * s⟩ := rfl

@[simp] theorem Vector3.scalar_mul_def (s : α) (v : Vector3 α) :
    s * v = ⟨v.x * s, v.y * s, v.z * s⟩ := rfl

@[simp] theorem Vector3.div_scalar_def (v : Vector3 α) (s : α) :
    v / s = ⟨v.x * (1 / s), v.y * (1 / s), v.z * (1 / s)⟩ := rfl

@[simp] theorem Vector3.zero_def : (0 : Vector3 α) = ⟨0, 0, 0⟩ := rfl

theorem getD_replicate_self {β : Type} (n i : Nat) (a : β) :
    (List.replicate n a).getD i a = a := by
  rw [List.getD_eq_getElem?_getD, List.getElem?_replicate]
  split <;> simp

theorem getD_replicate_of_lt {β : Type} {n i : Nat} (a d : β) (h : i < n) :
    (List.replicate n a).getD i d = a := by
  rw [List.getD_eq_getElem?_getD, List.getElem?_replicate, if_pos h]
  simp

theorem turb_loop_eq_sum (perlin : Perlin α) :
    ∀ (n : Nat) (temp : Vector3 α) (w : α),
      perlin.turb_loop n temp w =
        ∑ i ∈ Finset.range n, w * (1 / 2) ^ i * perlin.noise (temp * ((2 : α) ^ i)) := by
  intro n
  induction n with
  | zero => intro temp w; simp [Perlin.turb_loop]
  | succ n ih =>
    intro temp w
    rw [Perlin.turb_loop, ih, Finset.sum_range_succ']
    have harg : ∀ i : Nat, (temp * (2 : α)) * ((2 : α) ^ i) = temp * ((2 : α) ^ (i + 1)) := by
      intro i
      cases temp
      simp [pow_succ]
      refine ⟨by ring, by ring, by ring⟩
    have hcoef : ∀ i : Nat, w * (1 / 2 : α) * (1 / 2 : α) ^ i = w * (1 / 2 : α) ^ (i + 1) := by
      intro i
      rw [pow_succ]
      ring
    simp only [harg, hcoef, pow_zero, mul_one]
    have : temp * (1 : α) = temp := by cases temp; simp
    rw [this]
    ring

/-- C5 (amended): the Noise texture's value is the sinusoidal marbling
function `0.5 * (1 + sin(scale * p.z + 10 * turb(p, 7)))` in all three
channels, where the 7-octave turbulence `turb(p, 7)` is the ABSOLUTE VALUE OF
THE SIGNED SUM of octaves — octave `i` contributing `0.5^i * noise(2^i * p)`
with a single absolute value applied to the total — not the sum of the
octaves' magnitudes. -/
theorem noise_texture_marbling (sine : α → α) (perlin : Perlin α) (scale u v : α)
    (p : Vector3 α) :
    Texture.get_color_value sine (Texture.Noise perlin scale) u v p =
      (let c := (1 / 2 : α) * (1 + sine (scale * p.z + 10 * perlin.turb p 7))
       (⟨c, c, c⟩ : Vector3 α)) ∧
    perlin.turb p 7 =
      |∑ i ∈ Finset.range 7, (1 / 2 : α) ^ i * perlin.noise (p * ((2 : α) ^ i))| := by
  constructor
  · simp only [Texture.get_color_value, Vector3.mul_scalar_def, Vector3.mk.injEq]
    exact ⟨by ring, by ring, by ring⟩
  · rw [Perlin.turb, turb_loop_eq_sum]
    simp

/-- C5 counterexample: with the Perlin state whose gradient table is constant
`(1,0,0)` and whose permutation tables are all zero, at the point
`(5/8, 0, 0)` the octaves have mixed signs, so `turb(p, 7)` (absolute value of
the signed octave sum, value 286065/8388608) differs from the claimed sum of
octave magnitudes (value 1046385/8388608); consequently the Noise texture
value also differs from the claimed composition (instantiating the `sin`
parameter with the identity). -/
theorem turb_not_sum_of_magnitudes :
    let perlin0 : Perlin ℚ :=
      ⟨List.replicate 256 ⟨1, 0, 0⟩, List.replicate 256 0,
       List.replicate 256 0, List.replicate 256 0⟩
    let p : Vector3 ℚ := ⟨5 / 8, 0, 0⟩
    perlin0.turb p 7 ≠
      ∑ i ∈ Finset.range 7, (1 / 2 : ℚ) ^ i * |perlin0.noise (p * ((2 : ℚ) ^ i))| ∧
    Texture.get_color_value (fun x => x) (Texture.Noise perlin0 4) 0 0 p ≠
      (let c := (1 / 2 : ℚ) * (1 + (4 * p.z + 10 *
         (∑ i ∈ Finset.range 7, (1 / 2 : ℚ) ^ i * |perlin0.noise (p * ((2 : ℚ) ^ i))|)))
       (⟨c, c, c⟩ : Vector3 ℚ)) := by
  intro perlin0 p
  have hnoise : ∀ q : ℚ, perlin0.noise ⟨q, 0, 0⟩ =
      (let s : ℚ → ℚ := fun x => x * x * (3 - 2 * x)
       let u := s (q - (⌊q⌋ : ℚ))
       u - s u) := by
    intro q
    simp only [Perlin.noise, Perlin.perlin_interp, perlin0]
    have hx0 : ((Int.xor 0 0).xor 0).toNat = 0 := rfl
    simp only [getD_replicate_self, hx0,
      getD_replicate_of_lt _ _ (show (0 : Nat) < 256 by norm_num)]
    norm_num [Vector3.dot]
    ring
  have hvals : perlin0.noise ⟨5 / 8, 0, 0⟩ = -666225 / 8388608 ∧
      perlin0.noise ⟨5 / 4, 0, 0⟩ = 1485 / 16384 ∧
      perlin0.noise ⟨5 / 2, 0, 0⟩ = 0 ∧
      perlin0.noise ⟨5, 0, 0⟩ = 0 ∧
      perlin0.noise ⟨10, 0, 0⟩ = 0 ∧
      perlin0.noise ⟨20, 0, 0⟩ = 0 ∧
      perlin0.noise ⟨40, 0, 0⟩ = 0 := by
    refine ⟨?_, ?_, ?_, ?_, ?_, ?_, ?_⟩ <;> rw [hnoise] <;> norm_num
  have hsum : ∑ i ∈ Finset.range 7, (1 / 2 : ℚ) ^ i * |perlin0.noise (p * ((2 : ℚ) ^ i))| =
      1046385 / 8388608 := by
    simp only [Finset.sum_range_succ, Finset.sum_range_zero, p, Vector3.mul_scalar_def]
    norm_num [hvals.1, hvals.2.1, hvals.2.2.1, hvals.2.2.2.1, hvals.2.2.2.2.1,
      hvals.2.2.2.2.2.1, hvals.2.2.2.2.2.2, abs_eq_max_neg]
  have h7 : ((7 : Int)).toNat = 7 := rfl
  have hturb : perlin0.turb p 7 = 286065 / 8388608 := by
    simp only [Perlin.turb, h7, turb_loop_eq_sum]
    simp only [Finset.sum_range_succ, Finset.sum_range_zero, p, Vector3.mul_scalar_def]
    norm_num [hvals.1, hvals.2.1, hvals.2.2.1, hvals.2.2.2.1, hvals.2.2.2.2.1,
      hvals.2.2.2.2.2.1, hvals.2.2.2.2.2.2, abs_eq_max_neg]
  constructor
  · rw [hturb, hsum]
    norm_num
  · intro hcontra
    have hx := congrArg Vector3.x hcontra
    rw [hsum] at hx
    simp only [Texture.get_color_value, Vector3.mul_scalar_def, hturb] at hx
    norm_num [show p.z = (0 : ℚ) from rfl] at hx

/-- C2: evaluation of `new_bvh_node` over a 4-element range at the failing
input.  It does sort the index range by the axis comparator and split at the
midpoint, but it then recurses on the LEFT half `[start, mid)` for BOTH
children — the two pushed child nodes are identical and the right half
`[mid, end)` is never built — and it caches `AABB [(0,0,0),(0,0,0)]` as the
node's box regardless of the children, so the node's `bounding_box` (second
conjunct) is the zero box, not the tight union of the four spheres beneath it
(third and fourth conjuncts). -/
theorem new_bvh_node_left_half_twice_zero_box :
    let l0 : List (Hittable ℚ) :=
      [Hittable.Sphere 1 ⟨3, 0, 0⟩ 1, Hittable.Sphere 1 ⟨1, 0, 0⟩ 1,
       Hittable.Sphere 1 ⟨0, 0, 0⟩ 1, Hittable.Sphere 1 ⟨2, 0, 0⟩ 1]
    let child : Hittable ℚ := Hittable.BvhNode [0, 1, 2, 3] 0 1 (AABB.new 0 0)
    Hittable.new_bvh_node (fun _ => 0) 0 [0, 1, 2, 3] l0 0 4 0 1 =
      (Hittable.BvhNode [2, 1, 3, 0] 4 5 (AABB.new 0 0), l0 ++ [child, child], 3) ∧
    Hittable.bounding_box (0 : ℚ) 1 (Hittable.BvhNode [2, 1, 3, 0] 4 5 (AABB.new 0 0)) =
      some (AABB.new 0 0) ∧
    l0.map (Hittable.bounding_box 0 1) =
      [some (AABB.new ⟨2, -1, -1⟩ ⟨4, 1, 1⟩), some (AABB.new ⟨0, -1, -1⟩ ⟨2, 1, 1⟩),
       some (AABB.new ⟨-1, -1, -1⟩ ⟨1, 1, 1⟩), some (AABB.new ⟨1, -1, -1⟩ ⟨3, 1, 1⟩)] ∧
    AABB.surrounding_box (AABB.surrounding_box (AABB.surrounding_box
        (AABB.new (⟨2, -1, -1⟩ : Vector3 ℚ) ⟨4, 1, 1⟩) (AABB.new ⟨0, -1, -1⟩ ⟨2, 1, 1⟩))
        (AABB.new ⟨-1, -1, -1⟩ ⟨1, 1, 1⟩)) (AABB.new ⟨1, -1, -1⟩ ⟨3, 1, 1⟩) ≠
      AABB.new 0 0 := by
  refine ⟨?_, ?_, ?_, ?_⟩
  · have hinner : ∀ ctr : Nat,
        Hittable.new_bvh_node (fun _ => (0 : Int)) ctr [0, 1, 2, 3]
          [Hittable.Sphere 1 (⟨3, 0, 0⟩ : Vector3 ℚ) 1, Hittable.Sphere 1 ⟨1, 0, 0⟩ 1,
           Hittable.Sphere 1 ⟨0, 0, 0⟩ 1, Hittable.Sphere 1 ⟨2, 0, 0⟩ 1] 0 2 0 1 =
        (Hittable.BvhNode [0, 1, 2, 3] 0 1 (AABB.new 0 0),
         [Hittable.Sphere 1 (⟨3, 0, 0⟩ : Vector3 ℚ) 1, Hittable.Sphere 1 ⟨1, 0, 0⟩ 1,
          Hittable.Sphere 1 ⟨0, 0, 0⟩ 1, Hittable.Sphere 1 ⟨2, 0, 0⟩ 1], ctr + 1) := by
      intro ctr
      rw [Hittable.new_bvh_node]
      norm_num [AABB.box_x_compare, AABB.box_y_compare, AABB.box_z_compare,
        AABB.box_compare, Hittable.bounding_box, Hittable.sphere_bounding_box,
        Vector3.as_array, AABB.new, List.getD]
    rw [Hittable.new_bvh_node]
    norm_num [hinner, sort_slice, List.insertionSort, List.orderedInsert,
      AABB.box_x_compare, AABB.box_y_compare, AABB.box_z_compare, AABB.box_compare,
      Hittable.bounding_box, Hittable.sphere_bounding_box, Vector3.as_array, AABB.new,
      List.getD]
  · norm_num [Hittable.bounding_box]
  · norm_num [Hittable.bounding_box, Hittable.sphere_bounding_box, AABB.new]
  · intro hcontra
    have := congrArg (fun b => b.maximum.x) hcontra
    norm_num [AABB.surrounding_box, AABB.new,
      show Vector3.x (0 : Vector3 ℚ) = 0 from rfl] at this

theorem dot_neg_right (u v : Vector3 α) : Vector3.dot u (-v) = -Vector3.dot u v := by
  simp only [Vector3.neg_def, Vector3.dot]
  ring

theorem set_face_normal_front_face (rcd : HitRecord α) (ray : Ray α)
    (outward : Vector3 α) :
    ((rcd.set_face_normal ray outward).front_face = true ↔
      Vector3.dot ray.direction outward < 0) := by
  simp [HitRecord.set_face_normal]

theorem set_face_normal_normal (rcd : HitRecord α) (ray : Ray α)
    (outward : Vector3 α) :
    (rcd.set_face_normal ray outward).normal =
      if Vector3.dot ray.direction outward < 0 then outward else -outward := by
  simp only [HitRecord.set_face_normal, decide_eq_true_eq]

theorem set_face_normal_t (rcd : HitRecord α) (ray : Ray α) (outward : Vector3 α) :
    (rcd.set_face_normal ray outward).t = rcd.t := rfl

theorem dot_set_face_normal_nonpos (rcd : HitRecord α) (ray : Ray α)
    (outward : Vector3 α) :
    Vector3.dot ray.direction ((rcd.set_face_normal ray outward).normal) ≤ 0 := by
  rw [set_face_normal_normal]
  split
  · next hd => exact le_of_lt hd
  · next hd =>
    rw [dot_neg_right]
    exact neg_nonpos.mpr (le_of_not_lt hd)

theorem sphere_hit_normal_nonpos (sqrt : α → α) (sphere_uv : Vector3 α → α × α)
    (center : Vector3 α) (radius : α) (ray : Ray α) (t_min t_max : α) (m : Nat)
    (rcd : HitRecord α)
    (heq : Hittable.sphere_hit sqrt sphere_uv center radius ray t_min t_max m = some rcd) :
    Vector3.dot ray.direction rcd.normal ≤ 0 := by
  simp only [Hittable.sphere_hit] at heq
  split at heq
  · exact Option.noConfusion heq
  · rw [Option.map_eq_some'] at heq
    obtain ⟨root, hroot, hrcd⟩ := heq
    subst hrcd
    exact dot_set_face_normal_nonpos
      { HitRecord.new with mat_handle := m, t := root, point := ray.point_at root } ray
      ((ray.point_at root - center) / radius)

theorem xy_rect_hit_normal_nonpos (x0 x1 y0 y1 k : α) (ray : Ray α) (t_min t_max : α)
    (m : Nat) (rcd : HitRecord α)
    (heq : Hittable.xy_rect_hit x0 x1 y0 y1 k ray t_min t_max m = some rcd) :
    Vector3.dot ray.direction rcd.normal ≤ 0 := by
  simp only [Hittable.xy_rect_hit] at heq
  split at heq
  · exact Option.noConfusion heq
  · split at heq
    · exact Option.noConfusion heq
    · rw [Option.some_inj] at heq
      subst heq
      dsimp only
      exact dot_set_face_normal_nonpos _ _ _

theorem xz_rect_hit_normal_nonpos (x0 x1 z0 z1 k : α) (ray : Ray α) (t_min t_max : α)
    (m : Nat) (rcd : HitRecord α)
    (heq : Hittable.xz_rect_hit x0 x1 z0 z1 k ray t_min t_max m = some rcd) :
    Vector3.dot ray.direction rcd.normal ≤ 0 := by
  simp only [Hittable.xz_rect_hit] at heq
  split at heq
  · exact Option.noConfusion heq
  · split at heq
    · exact Option.noConfusion heq
    · rw [Option.some_inj] at heq
      subst heq
      dsimp only
      exact dot_set_face_normal_nonpos _ _ _

theorem yz_rect_hit_normal_nonpos (y0 y1 z0 z1 k : α) (ray : Ray α) (t_min t_max : α)
    (m : Nat) (rcd : HitRecord α)
    (heq : Hittable.yz_rect_hit y0 y1 z0 z1 k ray t_min t_max m = some rcd) :
    Vector3.dot ray.direction rcd.normal ≤ 0 := by
  simp only [Hittable.yz_rect_hit] at heq
  split at heq
  · exact Option.noConfusion heq
  · split at heq
    · exact Option.noConfusion heq
    · rw [Option.some_inj] at heq
      subst heq
      dsimp only
      exact dot_set_face_normal_nonpos _ _ _

theorem hit_normal_aux (sqrt : α → α) (sphere_uv : Vector3 α → α × α) :
    ∀ n : Nat,
      (∀ h : Hittable α, hsize h ≤ n → ∀ (r : Ray α) (t_min t_max : α) (rcd : HitRecord α),
        rot_free h → Hittable.hit sqrt sphere_uv h r t_min t_max = some rcd →
        Vector3.dot r.direction rcd.normal ≤ 0) ∧
      (∀ l : List (Hittable α), lsize l ≤ n → ∀ (r : Ray α) (t_min closest : α)
        (acc : Option (HitRecord α)) (rcd : HitRecord α), rot_free_list l →
        (∀ rcd0, acc = some rcd0 → Vector3.dot r.direction rcd0.normal ≤ 0) →
        hit_hittables_loop sqrt sphere_uv l r t_min closest acc = some rcd →
        Vector3.dot r.direction rcd.normal ≤ 0) := by
  intro n
  induction n using Nat.strong_induction_on with
  | _ n ih =>
    constructor
    · intro h hn r t_min t_max rcd hrf heq
      cases h with
      | Sphere m center radius =>
        simp only [Hittable.hit] at heq
        exact sphere_hit_normal_nonpos _ _ _ _ _ _ _ _ _ heq
      | MovingSphere m c0 c1 tm0 tm1 radius =>
        simp only [Hittable.hit] at heq
        exact sphere_hit_normal_nonpos _ _ _ _ _ _ _ _ _ heq
      | BvhNode lst li ri bb =>
        simp only [Hittable.hit] at heq
        exact Option.noConfusion heq
      | XYRect m x0 x1 y0 y1 k =>
        simp only [Hittable.hit] at heq
        exact xy_rect_hit_normal_nonpos _ _ _ _ _ _ _ _ _ _ heq
      | XZRect m x0 x1 z0 z1 k =>
        simp only [Hittable.hit] at heq
        exact xz_rect_hit_normal_nonpos _ _ _ _ _ _ _ _ _ _ heq
      | YZRect m y0 y1 z0 z1 k =>
        simp only [Hittable.hit] at heq
        exact yz_rect_hit_normal_nonpos _ _ _ _ _ _ _ _ _ _ heq
      | Box m mn mx sides =>
        simp only [Hittable.hit] at heq
        simp only [hsize] at hn
        simp only [rot_free] at hrf
        exact (ih (lsize sides) (by omega)).2 sides (le_refl _) r t_min t_max none rcd hrf
          (fun rcd0 h0 => Option.noConfusion h0) heq
      | Translate offset ptr =>
        simp only [Hittable.hit] at heq
        split at heq
        · rw [Option.some_inj] at heq
          subst heq
          exact dot_set_face_normal_nonpos _ _ _
        · exact Option.noConfusion heq
      | RotateY s cth hb bb ptr =>
        simp only [rot_free] at hrf
    · intro l hn r t_min closest acc rcd hrf hacc heq
      cases l with
      | nil =>
        simp only [hit_hittables_loop] at heq
        exact hacc rcd heq
      | cons h rest =>
        simp only [lsize] at hn
        simp only [rot_free_list] at hrf
        simp only [hit_hittables_loop] at heq
        split at heq
        · next record hrec =>
          have hrn : Vector3.dot r.direction record.normal ≤ 0 :=
            (ih (hsize h) (by omega)).1 h (le_refl _) r t_min closest record hrf.1 hrec
          exact (ih (lsize rest) (by omega)).2 rest (le_refl _) r t_min record.t
            (some record) rcd hrf.2
            (fun rcd0 h0 => by rw [Option.some_inj] at h0; exact h0 ▸ hrn) heq
        · exact (ih (lsize rest) (by omega)).2 rest (le_refl _) r t_min closest acc rcd
            hrf.2 hacc heq

/-- C4 (amended): `set_face_normal` orients the stored normal against the ray
it is given — `front_face` is true exactly when that ray's direction and the
outward normal point into each other, and the stored normal's dot product
with that direction is never positive (first conjunct).  Every `hit` arm
applies it with a ray whose direction equals the incoming ray's — so for
every `RotateY`-free hittable the record's normal opposes the original ray
(second conjunct; `Translate` passes the offset ray, which has the same
direction) — EXCEPT `hit_rotate_y`, which applies it to the rotated ray, so a
`RotateY` record's normal opposes the ROTATED direction instead (third
conjunct), and may point with the original ray (see the counterexample). -/
theorem hit_normal_opposes_ray (sqrt : α → α) (sphere_uv : Vector3 α → α × α) :
    (∀ (rcd : HitRecord α) (ray : Ray α) (outward : Vector3 α),
      ((rcd.set_face_normal ray outward).front_face = true ↔
        Vector3.dot ray.direction outward < 0) ∧
      Vector3.dot ray.direction ((rcd.set_face_normal ray outward).normal) ≤ 0) ∧
    (∀ (h : Hittable α) (r : Ray α) (t_min t_max : α) (rcd : HitRecord α),
      rot_free h → Hittable.hit sqrt sphere_uv h r t_min t_max = some rcd →
      Vector3.dot r.direction rcd.normal ≤ 0) ∧
    (∀ (s c : α) (hb : Bool) (bb : AABB α) (ptr : Hittable α) (r : Ray α)
      (t_min t_max : α) (rcd : HitRecord α),
      Hittable.hit sqrt sphere_uv (Hittable.RotateY s c hb bb ptr) r t_min t_max =
        some rcd →
      Vector3.dot (⟨c * r.direction.x - s * r.direction.z, r.direction.y,
        s * r.direction.x + c * r.direction.z⟩ : Vector3 α) rcd.normal ≤ 0) := by
  refine ⟨fun rcd ray outward => ⟨set_face_normal_front_face rcd ray outward,
    dot_set_face_normal_nonpos rcd ray outward⟩, ?_, ?_⟩
  · intro h r t_min t_max rcd hrf heq
    exact (hit_normal_aux sqrt sphere_uv (hsize h)).1 h (le_refl _) r t_min t_max rcd hrf heq
  · intro s c hb bb ptr r t_min t_max rcd heq
    simp only [Hittable.hit, Hittable.hit_rotate_y] at heq
    split at heq
    · next rcd0 hrec =>
      rw [Option.some_inj] at heq
      subst heq
      exact dot_set_face_normal_nonpos
        { rcd0 with point := ⟨c * rcd0.point.x + s * rcd0.point.z, rcd0.point.y,
            -s * rcd0.point.x + c * rcd0.point.z⟩ }
        (Ray.with_time
          ⟨c * r.origin.x - s * r.origin.z, r.origin.y, s * r.origin.x + c * r.origin.z⟩
          ⟨c * r.direction.x - s * r.direction.z, r.direction.y,
           s * r.direction.x + c * r.direction.z⟩ r.time)
        ⟨c * rcd0.normal.x + s * rcd0.normal.z, rcd0.normal.y,
         -s * rcd0.normal.x + c * rcd0.normal.z⟩
    · exact Option.noConfusion heq

/-- C4 counterexample: a `RotateY` by 90 degrees (`sin_theta = 1`,
`cos_theta = 0`, a genuine rotation) around an XY rectangle, hit by the ray
with direction `(1, 0, 1)`: the returned record's stored normal is `(1,0,0)`,
whose dot product with the incoming ray's direction is `1 > 0` — the normal
does not oppose the incoming ray — because `hit_rotate_y` orients it against
the rotated ray instead. -/
theorem rotate_y_normal_with_ray :
    Hittable.hit (fun x : ℚ => x) (fun _ => (0, 0))
        (Hittable.RotateY 1 0 true (AABB.new 0 0) (Hittable.XYRect 1 (-1) 1 (-1) 1 1))
        ⟨⟨0, 0, 0⟩, ⟨1, 0, 1⟩, 0⟩ 0 10 =
      some ⟨⟨1, 0, 1⟩, ⟨1, 0, 0⟩, 1, false, 1, 0, 1 / 2⟩ ∧
    (0 : ℚ) <
      Vector3.dot (⟨1, 0, 1⟩ : Vector3 ℚ) (⟨1, 0, 0⟩ : Vector3 ℚ) ∧
    (1 : ℚ) * 1 + 0 * 0 = 1 := by
  refine ⟨?_, by norm_num [Vector3.dot], by norm_num⟩
  norm_num [Hittable.hit, Hittable.hit_rotate_y, Hittable.xy_rect_hit, Ray.with_time,
    HitRecord.set_face_normal, HitRecord.new, Ray.point_at, Vector3.dot]

/-- Closed instance of the C4 theorem: a rectangle hit from behind, with the
`rot_free` and `hit = some` hypotheses discharged at a concrete input. -/
theorem hit_normal_opposes_ray_witness :
    Hittable.hit (fun x : ℚ => x) (fun _ => (0, 0)) (Hittable.XYRect 1 (-1) 1 (-1) 1 5)
        ⟨⟨0, 0, 0⟩, ⟨0, 0, 1⟩, 0⟩ 0 10 =
      some ⟨⟨0, 0, 5⟩, ⟨0, 0, -1⟩, 5, false, 1, 1 / 2, 1 / 2⟩ ∧
    Vector3.dot (⟨0, 0, 1⟩ : Vector3 ℚ)
      (HitRecord.normal ⟨⟨0, 0, 5⟩, ⟨0, 0, -1⟩, 5, false, 1, 1 / 2, 1 / 2⟩) ≤ 0 := by
  have hhit : Hittable.hit (fun x : ℚ => x) (fun _ => (0, 0))
      (Hittable.XYRect 1 (-1) 1 (-1) 1 5) ⟨⟨0, 0, 0⟩, ⟨0, 0, 1⟩, 0⟩ 0 10 =
      some ⟨⟨0, 0, 5⟩, ⟨0, 0, -1⟩, 5, false, 1, 1 / 2, 1 / 2⟩ := by
    norm_num [Hittable.hit, Hittable.xy_rect_hit, HitRecord.set_face_normal,
      HitRecord.new, Ray.point_at, Vector3.dot]
  exact ⟨hhit, (hit_normal_opposes_ray (fun x : ℚ => x) (fun _ => (0, 0))).2.1
    (Hittable.XYRect 1 (-1) 1 (-1) 1 5) ⟨⟨0, 0, 0⟩, ⟨0, 0, 1⟩, 0⟩ 0 10
    ⟨⟨0, 0, 5⟩, ⟨0, 0, -1⟩, 5, false, 1, 1 / 2, 1 / 2⟩ (by simp [rot_free]) hhit⟩

theorem length_squared_nonneg (v : Vector3 α) : 0 ≤ v.length_squared := by
  simp only [Vector3.length_squared]
  have := mul_self_nonneg v.x
  have := mul_self_nonneg v.y
  have := mul_self_nonneg v.z
  linarith

theorem length_squared_pos {v : Vector3 α} (hv : v ≠ 0) : 0 < v.length_squared := by
  rcases eq_or_lt_of_le (length_squared_nonneg v) with h | h
  · exfalso
    apply hv
    cases v with
    | mk x y z =>
      simp only [Vector3.length_squared] at h
      have hx : x = 0 := by nlinarith [mul_self_nonneg x, mul_self_nonneg y, mul_self_nonneg z]
      have hy : y = 0 := by nlinarith [mul_self_nonneg x, mul_self_nonneg y, mul_self_nonneg z]
      have hz : z = 0 := by nlinarith [mul_self_nonneg x, mul_self_nonneg y, mul_self_nonneg z]
      simp [Vector3.zero_def, hx, hy, hz]
  · exact h

theorem point_at_quadratic (r : Ray α) (c : Vector3 α) (t : α) :
    Vector3.dot (r.point_at t - c) (r.point_at t - c) =
      r.direction.length_squared * (t * t) +
        2 * Vector3.dot (r.origin - c) r.direction * t +
        (r.origin - c).length_squared := by
  cases r with
  | mk o d time =>
    cases o; cases d; cases c
    simp only [Ray.point_at, Vector3.dot, Vector3.length_squared, Vector3.add_def,
      Vector3.sub_def, Vector3.scalar_mul_def]
    ring

theorem sphere_hit_spec (sqrt : α → α) (sphere_uv : Vector3 α → α × α)
    (center : Vector3 α) (radius : α) (r : Ray α) (t_min t_max : α) (m : Nat)
    (hsq : sqrt_ok sqrt) (hd : r.direction ≠ 0) :
    (∀ rcd, Hittable.sphere_hit sqrt sphere_uv center radius r t_min t_max m = some rcd →
      t_min ≤ rcd.t ∧ rcd.t ≤ t_max ∧
      Vector3.dot (r.point_at rcd.t - center) (r.point_at rcd.t - center) =
        radius * radius ∧
      (∀ t, t_min ≤ t → t < rcd.t →
        Vector3.dot (r.point_at t - center) (r.point_at t - center) ≠ radius * radius)) ∧
    (Hittable.sphere_hit sqrt sphere_uv center radius r t_min t_max m = none →
      ∀ t, t_min ≤ t → t ≤ t_max →
        Vector3.dot (r.point_at t - center) (r.point_at t - center) ≠ radius * radius) := by
  have ha : 0 < r.direction.length_squared := length_squared_pos hd
  have hane : r.direction.length_squared ≠ 0 := ne_of_gt ha
  have hchar : ∀ t, (Vector3.dot (r.point_at t - center) (r.point_at t - center) =
      radius * radius) ↔
      r.direction.length_squared * (t * t) +
        (2 * Vector3.dot (r.origin - center) r.direction) * t +
        ((r.origin - center).length_squared - radius * radius) = 0 := by
    intro t
    rw [point_at_quadratic]
    constructor <;> intro h <;> linarith
  -- abbreviations
  set A := r.direction.length_squared with hA
  set HB := Vector3.dot (r.origin - center) r.direction with hHB
  set CC := (r.origin - center).length_squared - radius * radius with hCC
  by_cases hdisc : HB * HB - A * ((r.origin - center).length_squared - radius * radius) < 0
  · -- negative discriminant: no real intersection, and the code returns none
    have hnone : Hittable.sphere_hit sqrt sphere_uv center radius r t_min t_max m = none := by
      simp only [Hittable.sphere_hit]
      rw [if_pos]
      exact hdisc
    have hnoroot : ∀ t, Vector3.dot (r.point_at t - center) (r.point_at t - center) ≠
        radius * radius := by
      intro t hint
      rw [hchar] at hint
      refine quadratic_ne_zero_of_discrim_ne_sq (fun s => ?_) t hint
      rw [discrim]
      intro hc
      nlinarith [sq_nonneg s]
    constructor
    · intro rcd heq
      rw [hnone] at heq
      exact Option.noConfusion heq
    · intro _ t _ _
      exact hnoroot t
  · -- nonnegative discriminant
    push_neg at hdisc
    rw [← hCC] at hdisc
    set D := HB * HB - A * CC with hD
    set SD := sqrt D with hSD
    have hsd2 : SD * SD = D := (hsq D hdisc).1
    have hsd0 : 0 ≤ SD := (hsq D hdisc).2
    set R0 := (-HB - SD) / A with hR0
    set R1 := (-HB + SD) / A with hR1
    have hdiscrim : discrim A (2 * HB) CC = (2 * SD) * (2 * SD) := by
      have h4 : (2 * SD) * (2 * SD) = 4 * (SD * SD) := by ring
      rw [discrim, h4, hsd2, hD]
      ring
    have hroots : ∀ t, (Vector3.dot (r.point_at t - center) (r.point_at t - center) =
        radius * radius) ↔ t = R1 ∨ t = R0 := by
      intro t
      rw [hchar, quadratic_eq_zero_iff hane hdiscrim t, hR1, hR0]
      constructor
      · rintro (h | h)
        · left
          rw [h, show -(2 * HB) + 2 * SD = 2 * (-HB + SD) by ring,
            show (2 : α) * A = 2 * A from rfl, mul_div_mul_left _ _ (two_ne_zero)]
        · right
          rw [h, show -(2 * HB) - 2 * SD = 2 * (-HB - SD) by ring,
            mul_div_mul_left _ _ (two_ne_zero)]
      · rintro (h | h)
        · left
          rw [h, show -(2 * HB) + 2 * SD = 2 * (-HB + SD) by ring,
            mul_div_mul_left _ _ (two_ne_zero)]
        · right
          rw [h, show -(2 * HB) - 2 * SD = 2 * (-HB - SD) by ring,
            mul_div_mul_left _ _ (two_ne_zero)]
    have horder : R0 ≤ R1 := by
      rw [hR0, hR1]
      exact (div_le_div_iff_of_pos_right ha).mpr (by linarith)
    have hunfold : Hittable.sphere_hit sqrt sphere_uv center radius r t_min t_max m =
        (if R0 < t_min ∨ t_max < R0 then
          if R1 < t_min ∨ t_max < R1 then none else some R1
         else some R0).map fun root =>
          let p := r.point_at root
          let outward_normal := (p - center) / radius
          let rec0 : HitRecord α :=
            { HitRecord.new with mat_handle := m, t := root, point := p }
          let rec1 := rec0.set_face_normal r outward_normal
          let uv := sphere_uv outward_normal
          { rec1 with u := uv.1, v := uv.2 } := by
      simp only [Hittable.sphere_hit]
      rw [if_neg (not_lt.mpr hdisc)]
    constructor
    · intro rcd heq
      rw [hunfold, Option.map_eq_some'] at heq
      obtain ⟨root, hroot, hrcd⟩ := heq
      have hrt : rcd.t = root := by subst hrcd; rfl
      split at hroot
      · next hout0 =>
        split at hroot
        · exact Option.noConfusion hroot
        · next hin1 =>
          push_neg at hin1
          rw [Option.some_inj] at hroot
          subst hroot
          rw [hrt]
          refine ⟨hin1.1, hin1.2, (hroots _).mpr (Or.inl rfl), ?_⟩
          intro t ht1 ht2 hint
          rcases (hroots t).mp hint with rfl | rfl
          · exact absurd ht2 (lt_irrefl _)
          · rcases hout0 with h0 | h0
            · exact absurd ht1 (not_le.mpr h0)
            · exact absurd hin1.2 (not_le.mpr (lt_of_lt_of_le h0 horder))
      · next hin0 =>
        push_neg at hin0
        rw [Option.some_inj] at hroot
        subst hroot
        rw [hrt]
        refine ⟨hin0.1, hin0.2, (hroots _).mpr (Or.inr rfl), ?_⟩
        intro t ht1 ht2 hint
        rcases (hroots t).mp hint with rfl | rfl
        · exact absurd (lt_of_lt_of_le ht2 horder) (lt_irrefl _)
        · exact absurd ht2 (lt_irrefl _)
    · intro heq t ht1 ht2 hint
      rw [hunfold, Option.map_eq_none'] at heq
      split at heq
      · next hout0 =>
        split at heq
        · next hout1 =>
          rcases (hroots t).mp hint with rfl | rfl
          · rcases hout1 with h | h
            · exact absurd ht1 (not_le.mpr h)
            · exact absurd ht2 (not_le.mpr h)
          · rcases hout0 with h | h
            · exact absurd ht1 (not_le.mpr h)
            · exact absurd ht2 (not_le.mpr h)
        · exact Option.noConfusion heq
      · exact Option.noConfusion heq

theorem point_at_x (r : Ray α) (t : α) : (r.point_at t).x = r.origin.x + r.direction.x * t := by
  simp [Ray.point_at]

theorem point_at_y (r : Ray α) (t : α) : (r.point_at t).y = r.origin.y + r.direction.y * t := by
  simp [Ray.point_at]

theorem point_at_z (r : Ray α) (t : α) : (r.point_at t).z = r.origin.z + r.direction.z * t := by
  simp [Ray.point_at]

theorem plane_cross_unique {oz dz k : α} (hdz : dz ≠ 0) (t : α) :
    oz + dz * t = k ↔ t = (k - oz) / dz := by
  rw [eq_div_iff hdz]
  constructor <;> intro h <;> linear_combination h

theorem xy_rect_hit_spec (x0 x1 y0 y1 k : α) (r : Ray α) (t_min t_max : α) (m : Nat)
    (hdz : r.direction.z ≠ 0) :
    (∀ rcd, Hittable.xy_rect_hit x0 x1 y0 y1 k r t_min t_max m = some rcd →
      t_min ≤ rcd.t ∧ rcd.t ≤ t_max ∧
      ((r.point_at rcd.t).z = k ∧ x0 ≤ (r.point_at rcd.t).x ∧ (r.point_at rcd.t).x ≤ x1 ∧
        y0 ≤ (r.point_at rcd.t).y ∧ (r.point_at rcd.t).y ≤ y1) ∧
      (∀ t, t_min ≤ t → t < rcd.t →
        ¬((r.point_at t).z = k ∧ x0 ≤ (r.point_at t).x ∧ (r.point_at t).x ≤ x1 ∧
          y0 ≤ (r.point_at t).y ∧ (r.point_at t).y ≤ y1))) ∧
    (Hittable.xy_rect_hit x0 x1 y0 y1 k r t_min t_max m = none →
      ∀ t, t_min ≤ t → t ≤ t_max →
        ¬((r.point_at t).z = k ∧ x0 ≤ (r.point_at t).x ∧ (r.point_at t).x ≤ x1 ∧
          y0 ≤ (r.point_at t).y ∧ (r.point_at t).y ≤ y1)) := by
  have huniq : ∀ t, (r.point_at t).z = k → t = (k - r.origin.z) / r.direction.z := by
    intro t h
    rw [point_at_z] at h
    exact (plane_cross_unique hdz t).mp h
  constructor
  · intro rcd heq
    simp only [Hittable.xy_rect_hit] at heq
    split at heq
    · exact Option.noConfusion heq
    · next hrange =>
      split at heq
      · exact Option.noConfusion heq
      · next hext =>
        push_neg at hrange hext
        rw [Option.some_inj] at heq
        have hrt : rcd.t = (k - r.origin.z) / r.direction.z := by
          rw [← heq]
          rfl
        subst heq
        rw [hrt] at *
        refine ⟨hrange.1, hrange.2, ⟨?_, ?_, ?_, ?_, ?_⟩, ?_⟩
        · rw [point_at_z]
          rw [plane_cross_unique hdz]
        · rw [point_at_x]; linarith [hext.1]
        · rw [point_at_x]; linarith [hext.2.1]
        · rw [point_at_y]; linarith [hext.2.2.1]
        · rw [point_at_y]; linarith [hext.2.2.2]
        · intro t ht1 ht2 hint
          exact absurd (huniq t hint.1) (ne_of_lt ht2)
  · intro heq t ht1 ht2 hint
    have ht : t = (k - r.origin.z) / r.direction.z := huniq t hint.1
    simp only [Hittable.xy_rect_hit] at heq
    split at heq
    · next hrange =>
      subst ht
      rcases hrange with h | h
      · exact absurd ht1 (not_le.mpr h)
      · exact absurd ht2 (not_le.mpr h)
    · split at heq
      · next hext =>
        subst ht
        rw [point_at_x] at hint
        rw [point_at_y] at hint
        rcases hext with h | h | h | h <;> linarith [hint.2.1, hint.2.2.1, hint.2.2.2.1,
          hint.2.2.2.2]
      · exact Option.noConfusion heq

theorem xz_rect_hit_spec (x0 x1 z0 z1 k : α) (r : Ray α) (t_min t_max : α) (m : Nat)
    (hdy : r.direction.y ≠ 0) :
    (∀ rcd, Hittable.xz_rect_hit x0 x1 z0 z1 k r t_min t_max m = some rcd →
      t_min ≤ rcd.t ∧ rcd.t ≤ t_max ∧
      ((r.point_at rcd.t).y = k ∧ x0 ≤ (r.point_at rcd.t).x ∧ (r.point_at rcd.t).x ≤ x1 ∧
        z0 ≤ (r.point_at rcd.t).z ∧ (r.point_at rcd.t).z ≤ z1) ∧
      (∀ t, t_min ≤ t → t < rcd.t →
        ¬((r.point_at t).y = k ∧ x0 ≤ (r.point_at t).x ∧ (r.point_at t).x ≤ x1 ∧
          z0 ≤ (r.point_at t).z ∧ (r.point_at t).z ≤ z1))) ∧
    (Hittable.xz_rect_hit x0 x1 z0 z1 k r t_min t_max m = none →
      ∀ t, t_min ≤ t → t ≤ t_max →
        ¬((r.point_at t).y = k ∧ x0 ≤ (r.point_at t).x ∧ (r.point_at t).x ≤ x1 ∧
          z0 ≤ (r.point_at t).z ∧ (r.point_at t).z ≤ z1)) := by
  have huniq : ∀ t, (r.point_at t).y = k → t = (k - r.origin.y) / r.direction.y := by
    intro t h
    rw [point_at_y] at h
    exact (plane_cross_unique hdy t).mp h
  constructor
  · intro rcd heq
    simp only [Hittable.xz_rect_hit] at heq
    split at heq
    · exact Option.noConfusion heq
    · next hrange =>
      split at heq
      · exact Option.noConfusion heq
      · next hext =>
        push_neg at hrange hext
        rw [Option.some_inj] at heq
        have hrt : rcd.t = (k - r.origin.y) / r.direction.y := by
          rw [← heq]
          rfl
        subst heq
        rw [hrt] at *
        refine ⟨hrange.1, hrange.2, ⟨?_, ?_, ?_, ?_, ?_⟩, ?_⟩
        · rw [point_at_y]
          rw [plane_cross_unique hdy]
        · rw [point_at_x]; linarith [hext.1]
        · rw [point_at_x]; linarith [hext.2.1]
        · rw [point_at_z]; linarith [hext.2.2.1]
        · rw [point_at_z]; linarith [hext.2.2.2]
        · intro t ht1 ht2 hint
          exact absurd (huniq t hint.1) (ne_of_lt ht2)
  · intro heq t ht1 ht2 hint
    have ht : t = (k - r.origin.y) / r.direction.y := huniq t hint.1
    simp only [Hittable.xz_rect_hit] at heq
    split at heq
    · next hrange =>
      subst ht
      rcases hrange with h | h
      · exact absurd ht1 (not_le.mpr h)
      · exact absurd ht2 (not_le.mpr h)
    · split at heq
      · next hext =>
        subst ht
        rw [point_at_x] at hint
        rw [point_at_z] at hint
        rcases hext with h | h | h | h <;> linarith [hint.2.1, hint.2.2.1, hint.2.2.2.1,
          hint.2.2.2.2]
      · exact Option.noConfusion heq

theorem yz_rect_hit_spec (y0 y1 z0 z1 k : α) (r : Ray α) (t_min t_max : α) (m : Nat)
    (hdx : r.direction.x ≠ 0) :
    (∀ rcd, Hittable.yz_rect_hit y0 y1 z0 z1 k r t_min t_max m = some rcd →
      t_min ≤ rcd.t ∧ rcd.t ≤ t_max ∧
      ((r.point_at rcd.t).x = k ∧ y0 ≤ (r.point_at rcd.t).y ∧ (r.point_at rcd.t).y ≤ y1 ∧
        z0 ≤ (r.point_at rcd.t).z ∧ (r.point_at rcd.t).z ≤ z1) ∧
      (∀ t, t_min ≤ t → t < rcd.t →
        ¬((r.point_at t).x = k ∧ y0 ≤ (r.point_at t).y ∧ (r.point_at t).y ≤ y1 ∧
          z0 ≤ (r.point_at t).z ∧ (r.point_at t).z ≤ z1))) ∧
    (Hittable.yz_rect_hit y0 y1 z0 z1 k r t_min t_max m = none →
      ∀ t, t_min ≤ t → t ≤ t_max →
        ¬((r.point_at t).x = k ∧ y0 ≤ (r.point_at t).y ∧ (r.point_at t).y ≤ y1 ∧
          z0 ≤ (r.point_at t).z ∧ (r.point_at t).z ≤ z1)) := by
  have huniq : ∀ t, (r.point_at t).x = k → t = (k - r.origin.x) / r.direction.x := by
    intro t h
    rw [point_at_x] at h
    exact (plane_cross_unique hdx t).mp h
  constructor
  · intro rcd heq
    simp only [Hittable.yz_rect_hit] at heq
    split at heq
    · exact Option.noConfusion heq
    · next hrange =>
      split at heq
      · exact Option.noConfusion heq
      · next hext =>
        push_neg at hrange hext
        rw [Option.some_inj] at heq
        have hrt : rcd.t = (k - r.origin.x) / r.direction.x := by
          rw [← heq]
          rfl
        subst heq
        rw [hrt] at *
        refine ⟨hrange.1, hrange.2, ⟨?_, ?_, ?_, ?_, ?_⟩, ?_⟩
        · rw [point_at_x]
          rw [plane_cross_unique hdx]
        · rw [point_at_y]; linarith [hext.1]
        · rw [point_at_y]; linarith [hext.2.1]
        · rw [point_at_z]; linarith [hext.2.2.1]
        · rw [point_at_z]; linarith [hext.2.2.2]
        · intro t ht1 ht2 hint
          exact absurd (huniq t hint.1) (ne_of_lt ht2)
  · intro heq t ht1 ht2 hint
    have ht : t = (k - r.origin.x) / r.direction.x := huniq t hint.1
    simp only [Hittable.yz_rect_hit] at heq
    split at heq
    · next hrange =>
      subst ht
      rcases hrange with h | h
      · exact absurd ht1 (not_le.mpr h)
      · exact absurd ht2 (not_le.mpr h)
    · split at heq
      · next hext =>
        subst ht
        rw [point_at_y] at hint
        rw [point_at_z] at hint
        rcases hext with h | h | h | h <;> linarith [hint.2.1, hint.2.2.1, hint.2.2.2.1,
          hint.2.2.2.2]
      · exact Option.noConfusion heq

theorem hit_spec_aux (sqrt : α → α) (sphere_uv : Vector3 α → α × α) (hsq : sqrt_ok sqrt) :
    ∀ n : Nat,
      (∀ h : Hittable α, hsize h ≤ n → ∀ (r : Ray α) (t_min t_max : α),
        nondegenerate h r →
        (∀ rcd, Hittable.hit sqrt sphere_uv h r t_min t_max = some rcd →
          t_min ≤ rcd.t ∧ rcd.t ≤ t_max ∧ Intersects h r rcd.t ∧
          (∀ t, t_min ≤ t → t < rcd.t → ¬Intersects h r t)) ∧
        (Hittable.hit sqrt sphere_uv h r t_min t_max = none →
          ∀ t, t_min ≤ t → t ≤ t_max → ¬Intersects h r t)) ∧
      (∀ l : List (Hittable α), lsize l ≤ n → ∀ (r : Ray α) (t_min closest : α)
        (acc : Option (HitRecord α)),
        nondegenerate_list l r →
        (acc = none ∨ ∃ rcd0, acc = some rcd0 ∧ rcd0.t = closest ∧ t_min ≤ rcd0.t) →
        (hit_hittables_loop sqrt sphere_uv l r t_min closest acc = none →
          acc = none ∧ ∀ h ∈ l, ∀ t, t_min ≤ t → t ≤ closest → ¬Intersects h r t) ∧
        (∀ rcd, hit_hittables_loop sqrt sphere_uv l r t_min closest acc = some rcd →
          rcd.t ≤ closest ∧ t_min ≤ rcd.t ∧
          (acc = some rcd ∨ ∃ h ∈ l, Intersects h r rcd.t) ∧
          (∀ h ∈ l, ∀ t, t_min ≤ t → t < rcd.t → ¬Intersects h r t))) := by
  intro n
  induction n using Nat.strong_induction_on with
  | _ n ih =>
    constructor
    · intro h hn r t_min t_max hnd
      cases h with
      | Sphere m center radius =>
        simp only [nondegenerate] at hnd
        have hs := sphere_hit_spec sqrt sphere_uv center radius r t_min t_max m hsq hnd
        simp only [Hittable.hit]
        constructor
        · intro rcd heq
          obtain ⟨h1, h2, h3, h4⟩ := hs.1 rcd heq
          refine ⟨h1, h2, Intersects.sphere h3, ?_⟩
          intro t ht1 ht2 hint
          cases hint with
          | sphere hi => exact h4 t ht1 ht2 hi
        · intro heq t ht1 ht2 hint
          cases hint with
          | sphere hi => exact hs.2 heq t ht1 ht2 hi
      | MovingSphere m c0 c1 tm0 tm1 radius =>
        simp only [nondegenerate] at hnd
        have hs := sphere_hit_spec sqrt sphere_uv
          (Hittable.get_center_at_time c0 c1 tm0 tm1 r.time) radius r t_min t_max m hsq hnd
        simp only [Hittable.hit]
        constructor
        · intro rcd heq
          obtain ⟨h1, h2, h3, h4⟩ := hs.1 rcd heq
          refine ⟨h1, h2, Intersects.movingSphere h3, ?_⟩
          intro t ht1 ht2 hint
          cases hint with
          | movingSphere hi => exact h4 t ht1 ht2 hi
        · intro heq t ht1 ht2 hint
          cases hint with
          | movingSphere hi => exact hs.2 heq t ht1 ht2 hi
      | BvhNode lst li ri bb =>
        simp only [Hittable.hit]
        constructor
        · intro rcd heq
          exact Option.noConfusion heq
        · intro _ t _ _ hint
          cases hint
      | XYRect m x0 x1 y0 y1 k =>
        simp only [nondegenerate] at hnd
        have hs := xy_rect_hit_spec x0 x1 y0 y1 k r t_min t_max m hnd
        simp only [Hittable.hit]
        constructor
        · intro rcd heq
          obtain ⟨h1, h2, h3, h4⟩ := hs.1 rcd heq
          refine ⟨h1, h2, Intersects.xyRect h3.1 h3.2.1 h3.2.2.1 h3.2.2.2.1 h3.2.2.2.2, ?_⟩
          intro t ht1 ht2 hint
          cases hint with
          | xyRect hz hx0 hx1 hy0 hy1 => exact h4 t ht1 ht2 ⟨hz, hx0, hx1, hy0, hy1⟩
        · intro heq t ht1 ht2 hint
          cases hint with
          | xyRect hz hx0 hx1 hy0 hy1 => exact hs.2 heq t ht1 ht2 ⟨hz, hx0, hx1, hy0, hy1⟩
      | XZRect m x0 x1 z0 z1 k =>
        simp only [nondegenerate] at hnd
        have hs := xz_rect_hit_spec x0 x1 z0 z1 k r t_min t_max m hnd
        simp only [Hittable.hit]
        constructor
        · intro rcd heq
          obtain ⟨h1, h2, h3, h4⟩ := hs.1 rcd heq
          refine ⟨h1, h2, Intersects.xzRect h3.1 h3.2.1 h3.2.2.1 h3.2.2.2.1 h3.2.2.2.2, ?_⟩
          intro t ht1 ht2 hint
          cases hint with
          | xzRect hy hx0 hx1 hz0 hz1 => exact h4 t ht1 ht2 ⟨hy, hx0, hx1, hz0, hz1⟩
        · intro heq t ht1 ht2 hint
          cases hint with
          | xzRect hy hx0 hx1 hz0 hz1 => exact hs.2 heq t ht1 ht2 ⟨hy, hx0, hx1, hz0, hz1⟩
      | YZRect m y0 y1 z0 z1 k =>
        simp only [nondegenerate] at hnd
        have hs := yz_rect_hit_spec y0 y1 z0 z1 k r t_min t_max m hnd
        simp only [Hittable.hit]
        constructor
        · intro rcd heq
          obtain ⟨h1, h2, h3, h4⟩ := hs.1 rcd heq
          refine ⟨h1, h2, Intersects.yzRect h3.1 h3.2.1 h3.2.2.1 h3.2.2.2.1 h3.2.2.2.2, ?_⟩
          intro t ht1 ht2 hint
          cases hint with
          | yzRect hx hy0 hy1 hz0 hz1 => exact h4 t ht1 ht2 ⟨hx, hy0, hy1, hz0, hz1⟩
        · intro heq t ht1 ht2 hint
          cases hint with
          | yzRect hx hy0 hy1 hz0 hz1 => exact hs.2 heq t ht1 ht2 ⟨hx, hy0, hy1, hz0, hz1⟩
      | Box m mn mx sides =>
        simp only [nondegenerate] at hnd
        simp only [hsize] at hn
        have hl := (ih (lsize sides) (by omega)).2 sides (le_refl _) r t_min t_max none hnd
          (Or.inl rfl)
        simp only [Hittable.hit]
        constructor
        · intro rcd heq
          obtain ⟨h1, h2, h3, h4⟩ := hl.2 rcd heq
          rcases h3 with h3 | ⟨s, hs, hint⟩
          · exact Option.noConfusion h3
          · refine ⟨h2, h1, Intersects.box hs hint, ?_⟩
            intro t ht1 ht2 hint'
            cases hint' with
            | box hs' hi' => exact h4 _ hs' t ht1 ht2 hi'
        · intro heq t ht1 ht2 hint
          cases hint with
          | box hs hi => exact (hl.1 heq).2 _ hs t ht1 ht2 hi
      | Translate offset ptr =>
        simp only [nondegenerate] at hnd
        simp only [hsize] at hn
        have hp := (ih (hsize ptr) (by omega)).1 ptr (le_refl _)
          (Ray.with_time (r.origin - offset) r.direction r.time) t_min t_max hnd
        constructor
        · intro rcd heq
          simp only [Hittable.hit] at heq
          split at heq
          · next rcd0 hrec0 =>
            rw [Option.some_inj] at heq
            have hteq : rcd.t = rcd0.t := by
              rw [← heq]
              rfl
            obtain ⟨h1, h2, h3, h4⟩ := hp.1 rcd0 hrec0
            rw [hteq]
            refine ⟨h1, h2, Intersects.translate h3, ?_⟩
            intro t ht1 ht2 hint
            cases hint with
            | translate hi => exact h4 t ht1 ht2 hi
          · exact Option.noConfusion heq
        · intro heq t ht1 ht2 hint
          simp only [Hittable.hit] at heq
          split at heq
          · exact Option.noConfusion heq
          · next hrec0 =>
            cases hint with
            | translate hi => exact hp.2 hrec0 t ht1 ht2 hi
      | RotateY s c hb bb ptr =>
        simp only [nondegenerate] at hnd
        simp only [hsize] at hn
        have hp := (ih (hsize ptr) (by omega)).1 ptr (le_refl _)
          (Ray.with_time
            ⟨c * r.origin.x - s * r.origin.z, r.origin.y, s * r.origin.x + c * r.origin.z⟩
            ⟨c * r.direction.x - s * r.direction.z, r.direction.y,
             s * r.direction.x + c * r.direction.z⟩ r.time) t_min t_max hnd
        constructor
        · intro rcd heq
          simp only [Hittable.hit, Hittable.hit_rotate_y] at heq
          split at heq
          · next rcd0 hrec0 =>
            rw [Option.some_inj] at heq
            have hteq : rcd.t = rcd0.t := by
              rw [← heq]
              rfl
            obtain ⟨h1, h2, h3, h4⟩ := hp.1 rcd0 hrec0
            rw [hteq]
            refine ⟨h1, h2, Intersects.rotateY h3, ?_⟩
            intro t ht1 ht2 hint
            cases hint with
            | rotateY hi => exact h4 t ht1 ht2 hi
          · exact Option.noConfusion heq
        · intro heq t ht1 ht2 hint
          simp only [Hittable.hit, Hittable.hit_rotate_y] at heq
          split at heq
          · exact Option.noConfusion heq
          · next hrec0 =>
            cases hint with
            | rotateY hi => exact hp.2 hrec0 t ht1 ht2 hi
    · intro l hn r t_min closest acc hnd hAccInv
      cases l with
      | nil =>
        constructor
        · intro heq
          simp only [hit_hittables_loop] at heq
          exact ⟨heq, by simp⟩
        · intro rcd heq
          simp only [hit_hittables_loop] at heq
          rcases hAccInv with hA | ⟨rcd0, hA, hAt, hAmin⟩
          · rw [hA] at heq
            exact Option.noConfusion heq
          · rw [hA] at heq
            rw [Option.some_inj] at heq
            subst heq
            exact ⟨le_of_eq hAt, hAmin, Or.inl hA, by simp⟩
      | cons h rest =>
        simp only [lsize] at hn
        simp only [nondegenerate_list] at hnd
        have hh := (ih (hsize h) (by omega)).1 h (le_refl _) r t_min closest hnd.1
        constructor
        · intro heq
          simp only [hit_hittables_loop] at heq
          split at heq
          · next record hrec =>
            have := (((ih (lsize rest) (by omega)).2 rest (le_refl _) r t_min record.t
              (some record) hnd.2 (Or.inr ⟨record, rfl, rfl, (hh.1 record hrec).1⟩)).1 heq).1
            exact Option.noConfusion this
          · next hrec =>
            obtain ⟨haccn, hnone⟩ := ((ih (lsize rest) (by omega)).2 rest (le_refl _) r
              t_min closest acc hnd.2 hAccInv).1 heq
            refine ⟨haccn, ?_⟩
            intro h' hmem t ht1 ht2
            rcases List.mem_cons.mp hmem with rfl | hmem'
            · exact hh.2 hrec t ht1 ht2
            · exact hnone h' hmem' t ht1 ht2
        · intro rcd heq
          simp only [hit_hittables_loop] at heq
          split at heq
          · next record hrec =>
            obtain ⟨hb1, hb2, hb3, hb4⟩ := hh.1 record hrec
            obtain ⟨hc1, hc2, hc3, hc4⟩ := ((ih (lsize rest) (by omega)).2 rest (le_refl _)
              r t_min record.t (some record) hnd.2 (Or.inr ⟨record, rfl, rfl, hb1⟩)).2 rcd heq
            refine ⟨le_trans hc1 hb2, hc2, ?_, ?_⟩
            · rcases hc3 with hc3 | ⟨h', hm', hi'⟩
              · rw [Option.some_inj] at hc3
                exact Or.inr ⟨h, List.mem_cons_self h rest, hc3 ▸ hb3⟩
              · exact Or.inr ⟨h', List.mem_cons_of_mem _ hm', hi'⟩
            · intro h' hmem t ht1 ht2
              rcases List.mem_cons.mp hmem with rfl | hmem'
              · exact fun hint => hb4 t ht1 (lt_of_lt_of_le ht2 hc1) hint
              · exact hc4 h' hmem' t ht1 ht2
          · next hrec =>
            obtain ⟨hc1, hc2, hc3, hc4⟩ := ((ih (lsize rest) (by omega)).2 rest (le_refl _)
              r t_min closest acc hnd.2 hAccInv).2 rcd heq
            refine ⟨hc1, hc2, ?_, ?_⟩
            · rcases hc3 with hc3 | ⟨h', hm', hi'⟩
              · exact Or.inl hc3
              · exact Or.inr ⟨h', List.mem_cons_of_mem _ hm', hi'⟩
            · intro h' hmem t ht1 ht2
              rcases List.mem_cons.mp hmem with rfl | hmem'
              · exact hh.2 hrec t ht1 (le_of_lt (lt_of_lt_of_le ht2 hc1))
              · exact hc4 h' hmem' t ht1 ht2

/-- C3: `hit_hittables` returns the globally nearest intersection among the
supplied list: any returned record has its parameter `t` in `[t_min, t_max]`,
that `t` is a genuine geometric intersection of some listed hittable with the
ray, and no listed hittable intersects the ray at any smaller parameter that is
at least `t_min`; and the result is `none` exactly when no listed hittable
intersects the ray anywhere in `[t_min, t_max]`. Proved over idealized real
arithmetic, for any square-root function satisfying `sqrt_ok` and for rays that
are nondegenerate for every listed hittable (nonzero direction, and nonzero
direction component perpendicular to each axis-aligned rectangle, the cases
whose divisions would produce NaN/infinite slopes in `f64`). -/
theorem hit_hittables_nearest (sqrt : α → α) (sphere_uv : Vector3 α → α × α)
    (hsq : sqrt_ok sqrt) (l : List (Hittable α)) (r : Ray α) (t_min t_max : α)
    (hnd : nondegenerate_list l r) :
    (∀ rcd, hit_hittables sqrt sphere_uv l r t_min t_max = some rcd →
      t_min ≤ rcd.t ∧ rcd.t ≤ t_max ∧ (∃ h ∈ l, Intersects h r rcd.t) ∧
      (∀ h ∈ l, ∀ t, t_min ≤ t → t < rcd.t → ¬Intersects h r t)) ∧
    (hit_hittables sqrt sphere_uv l r t_min t_max = none ↔
      ∀ h ∈ l, ∀ t, t_min ≤ t → t ≤ t_max → ¬Intersects h r t) := by
  have H := (hit_spec_aux sqrt sphere_uv hsq (lsize l)).2 l (le_refl _) r t_min t_max none hnd
    (Or.inl rfl)
  simp only [hit_hittables]
  constructor
  · intro rcd heq
    obtain ⟨h1, h2, h3, h4⟩ := H.2 rcd heq
    rcases h3 with h3 | h3
    · exact Option.noConfusion h3
    · exact ⟨h2, h1, h3, h4⟩
  · constructor
    · intro heq
      exact (H.1 heq).2
    · intro hno
      cases heq : hit_hittables_loop sqrt sphere_uv l r t_min t_max none with
      | none => rfl
      | some rcd =>
        obtain ⟨h1, h2, h3, h4⟩ := H.2 rcd heq
        rcases h3 with h3 | ⟨h, hm, hi⟩
        · exact Option.noConfusion h3
        · exact absurd hi (hno h hm rcd.t h2 h1)

/-- Witness for the C3 theorem at a concrete input: two parallel unit
rectangles at `z = 5` and `z = 3` (listed in that order), probed by the ray
from the origin along `+z` with `t_min = 1/1000`, `t_max = 100`, over `ℝ`
with `Real.sqrt`. The scan returns the record of the NEARER rectangle, with
`t = 3`, even though the farther one appears first in the list; the theorem
applied to that result confirms `1/1000 ≤ 3 ≤ 100`. -/
theorem hit_hittables_nearest_witness :
    hit_hittables Real.sqrt (fun _ => ((0:ℝ), 0))
      [Hittable.XYRect 0 (-1) 1 (-1) 1 5, Hittable.XYRect 0 (-1) 1 (-1) 1 3]
      (Ray.with_time 0 ⟨0, 0, 1⟩ 0) ((1:ℝ)/1000) 100 =
      some ⟨⟨0, 0, 3⟩, ⟨0, 0, -1⟩, 3, false, 0, 1/2, 1/2⟩ ∧
    ((1:ℝ)/1000 ≤ (3:ℝ) ∧ (3:ℝ) ≤ 100) := by
  have hhit : hit_hittables Real.sqrt (fun _ => ((0:ℝ), 0))
      [Hittable.XYRect 0 (-1) 1 (-1) 1 5, Hittable.XYRect 0 (-1) 1 (-1) 1 3]
      (Ray.with_time 0 ⟨0, 0, 1⟩ 0) ((1:ℝ)/1000) 100 =
      some ⟨⟨0, 0, 3⟩, ⟨0, 0, -1⟩, 3, false, 0, 1/2, 1/2⟩ := by
    norm_num [hit_hittables, hit_hittables_loop, Hittable.hit, Hittable.xy_rect_hit,
      HitRecord.set_face_normal, HitRecord.new, Ray.with_time, Ray.point_at,
      Vector3.dot, decide_eq_true_eq, show Vector3.x (0 : Vector3 ℝ) = 0 from rfl,
      show Vector3.y (0 : Vector3 ℝ) = 0 from rfl,
      show Vector3.z (0 : Vector3 ℝ) = 0 from rfl]
  have hmain := (hit_hittables_nearest Real.sqrt (fun _ => ((0:ℝ), 0))
      (fun x hx => ⟨Real.mul_self_sqrt hx, Real.sqrt_nonneg x⟩)
      [Hittable.XYRect 0 (-1) 1 (-1) 1 5, Hittable.XYRect 0 (-1) 1 (-1) 1 3]
      (Ray.with_time 0 ⟨0, 0, 1⟩ 0) ((1:ℝ)/1000) 100
      (by norm_num [nondegenerate_list, nondegenerate, Ray.with_time])).1
      ⟨⟨0, 0, 3⟩, ⟨0, 0, -1⟩, 3, false, 0, 1/2, 1/2⟩ hhit
  exact ⟨hhit, hmain.1, hmain.2.1⟩

end RayTracer
